import Mathlib

set_option maxRecDepth 10000

/-!
# Verification of `src/pulsecore/mix.c`

A shallow embedding of the PulseAudio mixing core: the per-format mixing
kernels (`pa_mix_*_c`), the volume linearizers (`calc_linear_*_volume`),
the orchestrator `pa_mix` and the single-buffer path `pa_volume_memchunk`.

Conventions of the embedding:
* memory buffers are `List Nat` of byte values (every load normalizes with
  `% 256`, matching `uint8_t` reads);
* C machine integers are modelled as `Int` with explicit two's-complement
  wrapping (`i16`, `i32`, `i64`); signed overflow in the C source (which is
  undefined behaviour) is modelled as wrap-around, the behaviour of the
  compiled code on the target;
* `Int` division `/` and remainder `%` in Lean are Euclidean, so for the
  positive divisors used here `/` coincides with the C arithmetic right
  shift (floor division) and `%` with the C mask `& (d-1)` on non-negative
  operands;
* the host is little-endian, so the `ne` (native endian) kernels read and
  write little-endian and the `re` kernels byte-swap, exactly as the
  dispatch table resolves them;
* the external collaborators (volume curve, companded codec tables, the
  single-buffer volume kernels from other translation units) enter as
  function parameters.
-/

/-- Two's-complement wrap of an `Int` to signed 16 bits. -/
def i16 (n : Int) : Int := (n + 0x8000) % 0x10000 - 0x8000

/-- Two's-complement wrap of an `Int` to signed 32 bits: the value a C
`int32_t` holds after the (implementation-defined / wrapping) conversion. -/
def i32 (n : Int) : Int := (n + 0x80000000) % 0x100000000 - 0x80000000

/-- Two's-complement wrap of an `Int` to signed 64 bits. -/
def i64 (n : Int) : Int := (n + 0x8000000000000000) % 0x10000000000000000 - 0x8000000000000000

/-- Reading a 32-bit union slot (`pa_mix_info.linear[ch]`) as the `.i`
member, i.e. reinterpreting the 32-bit pattern as `int32_t`. -/
def unionI (u : Nat) : Int := i32 (u : Int)

/-- `PA_CLAMP_UNLIKELY(v, low, high)`:
`v > high ? high : (v < low ? low : v)`. -/
def paClamp (v low high : Int) : Int := if v > high then high else if v < low then low else v

/-- Byte `i` of a buffer, normalized to `uint8_t` range. -/
def byteAt (l : List Nat) (i : Nat) : Nat := l.getD i 0 % 256

/-- Little-endian 16-bit unsigned load. -/
def loadU16le (l : List Nat) : Nat := byteAt l 0 + 256 * byteAt l 1

/-- `*((int16_t*) p)` on the little-endian host. -/
def loadS16ne (l : List Nat) : Int := i16 (loadU16le l)

/-- `PA_INT16_SWAP(*((int16_t*) p))`: byte-swapped 16-bit load. -/
def loadS16re (l : List Nat) : Int := i16 (byteAt l 1 + 256 * byteAt l 0)

/-- Store a 16-bit value little-endian (value taken mod 2^16). -/
def storeU16le (u : Nat) : List Nat := [u % 256, u / 256 % 256]

/-- `*((int16_t*) data) = (int16_t) v` on the little-endian host. -/
def storeS16ne (v : Int) : List Nat := storeU16le ((v % 0x10000).toNat)

/-- `*((int16_t*) data) = PA_INT16_SWAP((int16_t) v)`. -/
def storeS16re (v : Int) : List Nat :=
  [((v % 0x10000).toNat) / 256 % 256, ((v % 0x10000).toNat) % 256]

/-- Little-endian 32-bit unsigned load. -/
def loadU32le (l : List Nat) : Nat :=
  byteAt l 0 + 256 * byteAt l 1 + 65536 * byteAt l 2 + 16777216 * byteAt l 3

/-- Big-endian 32-bit unsigned load (`PA_UINT32_SWAP` of the native load). -/
def loadU32be (l : List Nat) : Nat :=
  byteAt l 3 + 256 * byteAt l 2 + 65536 * byteAt l 1 + 16777216 * byteAt l 0

/-- `*((int32_t*) p)` on the little-endian host. -/
def loadS32ne (l : List Nat) : Int := i32 (loadU32le l)

/-- `PA_INT32_SWAP(*((int32_t*) p))`. -/
def loadS32re (l : List Nat) : Int := i32 (loadU32be l)

/-- Store a 32-bit value little-endian (value taken mod 2^32). -/
def storeU32le (u : Nat) : List Nat :=
  [u % 256, u / 256 % 256, u / 65536 % 256, u / 16777216 % 256]

/-- Store a 32-bit value byte-swapped (big-endian). -/
def storeU32be (u : Nat) : List Nat :=
  [u / 16777216 % 256, u / 65536 % 256, u / 256 % 256, u % 256]

/-- `*((int32_t*) data) = (int32_t) v`. -/
def storeS32ne (v : Int) : List Nat := storeU32le ((v % 0x100000000).toNat)

/-- `*((int32_t*) data) = PA_INT32_SWAP((int32_t) v)`. -/
def storeS32re (v : Int) : List Nat := storeU32be ((v % 0x100000000).toNat)

/-- `PA_READ24NE(p)`: 3-byte little-endian load (little-endian host). -/
def loadU24le (l : List Nat) : Nat := byteAt l 0 + 256 * byteAt l 1 + 65536 * byteAt l 2

/-- `PA_READ24RE(p)`: 3-byte big-endian load. -/
def loadU24be (l : List Nat) : Nat := byteAt l 2 + 256 * byteAt l 1 + 65536 * byteAt l 0

/-- `PA_WRITE24NE(p, u)`: 3-byte little-endian store. -/
def storeU24le (u : Nat) : List Nat := [u % 256, u / 256 % 256, u / 65536 % 256]

/-- `PA_WRITE24RE(p, u)`: 3-byte big-endian store. -/
def storeU24be (u : Nat) : List Nat := [u / 65536 % 256, u / 256 % 256, u % 256]

/-- One contributing stream as the mixing kernels see it: the acquired
read view (`m->ptr`, advanced in place) and the per-channel linear-gain
scratch `m->linear[]`.  Each `linear` entry is the raw 32-bit union slot
(`union { int32_t i; float f; }`); integer kernels read it via `unionI`,
float kernels as a float bit pattern. -/
structure MixStream where
  ptr : List Nat
  linear : List Nat
deriving DecidableEq, Repr, Inhabited

/-- Inner per-stream loop body of `pa_mix_s16ne_c` for a single output
sample slot: accumulate the gained sample into `sum` if the gain is
positive, and always advance the stream pointer by `sizeof(int16_t)`. -/
def s16neStep (channel : Nat) (a : Int × List MixStream) (m : MixStream) : Int × List MixStream :=
  let cv := unionI (m.linear.getD channel 0)
  let sum :=
    if cv > 0 then
      let hi := cv / 65536
      let lo := cv % 65536
      let v := loadS16ne m.ptr
      i32 (a.1 + i32 (i32 (v * lo) / 65536 + i32 (v * hi)))
    else a.1
  (sum, a.2 ++ [{ m with ptr := m.ptr.drop 2 }])

/-- All streams' contributions to one `s16ne` output sample slot. -/
def s16neSample (streams : List MixStream) (channel : Nat) : Int × List MixStream :=
  streams.foldl (s16neStep channel) (0, [])

/-- `pa_mix_s16ne_c`: arguments are the streams, the channel count, the
number of destination bytes (`end - data`), and the current channel
index.  Returns the bytes written to the destination and the streams with
their pointers advanced. -/
def pa_mix_s16ne_c : List MixStream → Nat → Nat → Nat → List Nat × List MixStream
  | streams, _, 0, _ => ([], streams)
  | streams, _, 1, channel =>
    let r := s16neSample streams channel
    (storeS16ne (paClamp r.1 (-0x8000) 0x7FFF), r.2)
  | streams, channels, n+2, channel =>
    let r := s16neSample streams channel
    let out := storeS16ne (paClamp r.1 (-0x8000) 0x7FFF)
    let channel' := if channel + 1 ≥ channels then 0 else channel + 1
    let rest := pa_mix_s16ne_c r.2 channels n channel'
    (out ++ rest.1, rest.2)

/-- Inner loop body of `pa_mix_s16re_c`: as `s16neStep` but the 16-bit
load is byte-swapped. -/
def s16reStep (channel : Nat) (a : Int × List MixStream) (m : MixStream) : Int × List MixStream :=
  let cv := unionI (m.linear.getD channel 0)
  let sum :=
    if cv > 0 then
      let hi := cv / 65536
      let lo := cv % 65536
      let v := loadS16re m.ptr
      i32 (a.1 + i32 (i32 (v * lo) / 65536 + i32 (v * hi)))
    else a.1
  (sum, a.2 ++ [{ m with ptr := m.ptr.drop 2 }])

/-- All streams' contributions to one `s16re` output sample slot. -/
def s16reSample (streams : List MixStream) (channel : Nat) : Int × List MixStream :=
  streams.foldl (s16reStep channel) (0, [])

/-- `pa_mix_s16re_c`: byte-swapped variant of `pa_mix_s16ne_c`. -/
def pa_mix_s16re_c : List MixStream → Nat → Nat → Nat → List Nat × List MixStream
  | streams, _, 0, _ => ([], streams)
  | streams, _, 1, channel =>
    let r := s16reSample streams channel
    (storeS16re (paClamp r.1 (-0x8000) 0x7FFF), r.2)
  | streams, channels, n+2, channel =>
    let r := s16reSample streams channel
    let out := storeS16re (paClamp r.1 (-0x8000) 0x7FFF)
    let channel' := if channel + 1 ≥ channels then 0 else channel + 1
    let rest := pa_mix_s16re_c r.2 channels n channel'
    (out ++ rest.1, rest.2)

/-- Inner loop body of `pa_mix_s32ne_c`: 64-bit accumulator, single wide
multiply `(v * cv) >> 16`, pointer advanced by `sizeof(int32_t)`. -/
def s32neStep (channel : Nat) (a : Int × List MixStream) (m : MixStream) : Int × List MixStream :=
  let cv := unionI (m.linear.getD channel 0)
  let sum :=
    if cv > 0 then
      let v : Int := loadS32ne m.ptr
      i64 (a.1 + i64 (v * cv) / 65536)
    else a.1
  (sum, a.2 ++ [{ m with ptr := m.ptr.drop 4 }])

/-- All streams' contributions to one `s32ne` output sample slot. -/
def s32neSample (streams : List MixStream) (channel : Nat) : Int × List MixStream :=
  streams.foldl (s32neStep channel) (0, [])

/-- `pa_mix_s32ne_c`. -/
def pa_mix_s32ne_c : List MixStream → Nat → Nat → Nat → List Nat × List MixStream
  | streams, _, 0, _ => ([], streams)
  | streams, _, 1, channel =>
    let r := s32neSample streams channel
    (storeS32ne (paClamp r.1 (-0x80000000) 0x7FFFFFFF), r.2)
  | streams, _, 2, channel =>
    let r := s32neSample streams channel
    (storeS32ne (paClamp r.1 (-0x80000000) 0x7FFFFFFF), r.2)
  | streams, _, 3, channel =>
    let r := s32neSample streams channel
    (storeS32ne (paClamp r.1 (-0x80000000) 0x7FFFFFFF), r.2)
  | streams, channels, n+4, channel =>
    let r := s32neSample streams channel
    let out := storeS32ne (paClamp r.1 (-0x80000000) 0x7FFFFFFF)
    let channel' := if channel + 1 ≥ channels then 0 else channel + 1
    let rest := pa_mix_s32ne_c r.2 channels n channel'
    (out ++ rest.1, rest.2)

/-- Inner loop body of `pa_mix_s32re_c`: byte-swapped 32-bit load. -/
def s32reStep (channel : Nat) (a : Int × List MixStream) (m : MixStream) : Int × List MixStream :=
  let cv := unionI (m.linear.getD channel 0)
  let sum :=
    if cv > 0 then
      let v : Int := loadS32re m.ptr
      i64 (a.1 + i64 (v * cv) / 65536)
    else a.1
  (sum, a.2 ++ [{ m with ptr := m.ptr.drop 4 }])

/-- All streams' contributions to one `s32re` output sample slot. -/
def s32reSample (streams : List MixStream) (channel : Nat) : Int × List MixStream :=
  streams.foldl (s32reStep channel) (0, [])

/-- `pa_mix_s32re_c`: byte-swapped variant of `pa_mix_s32ne_c`. -/
def pa_mix_s32re_c : List MixStream → Nat → Nat → Nat → List Nat × List MixStream
  | streams, _, 0, _ => ([], streams)
  | streams, _, 1, channel =>
    let r := s32reSample streams channel
    (storeS32re (paClamp r.1 (-0x80000000) 0x7FFFFFFF), r.2)
  | streams, _, 2, channel =>
    let r := s32reSample streams channel
    (storeS32re (paClamp r.1 (-0x80000000) 0x7FFFFFFF), r.2)
  | streams, _, 3, channel =>
    let r := s32reSample streams channel
    (storeS32re (paClamp r.1 (-0x80000000) 0x7FFFFFFF), r.2)
  | streams, channels, n+4, channel =>
    let r := s32reSample streams channel
    let out := storeS32re (paClamp r.1 (-0x80000000) 0x7FFFFFFF)
    let channel' := if channel + 1 ≥ channels then 0 else channel + 1
    let rest := pa_mix_s32re_c r.2 channels n channel'
    (out ++ rest.1, rest.2)

/-- Inner loop body of `pa_mix_s24ne_c`: packed 3-byte load promoted by
`<< 8` to a signed 32-bit sample, pointer advanced by 3. -/
def s24neStep (channel : Nat) (a : Int × List MixStream) (m : MixStream) : Int × List MixStream :=
  let cv := unionI (m.linear.getD channel 0)
  let sum :=
    if cv > 0 then
      let v : Int := i32 (loadU24le m.ptr * 256)
      i64 (a.1 + i64 (v * cv) / 65536)
    else a.1
  (sum, a.2 ++ [{ m with ptr := m.ptr.drop 3 }])

/-- All streams' contributions to one `s24ne` output sample slot. -/
def s24neSample (streams : List MixStream) (channel : Nat) : Int × List MixStream :=
  streams.foldl (s24neStep channel) (0, [])

/-- `pa_mix_s24ne_c`. -/
def pa_mix_s24ne_c : List MixStream → Nat → Nat → Nat → List Nat × List MixStream
  | streams, _, 0, _ => ([], streams)
  | streams, _, 1, channel =>
    let r := s24neSample streams channel
    (storeU24le (((paClamp r.1 (-0x80000000) 0x7FFFFFFF) % 0x100000000).toNat / 256), r.2)
  | streams, _, 2, channel =>
    let r := s24neSample streams channel
    (storeU24le (((paClamp r.1 (-0x80000000) 0x7FFFFFFF) % 0x100000000).toNat / 256), r.2)
  | streams, channels, n+3, channel =>
    let r := s24neSample streams channel
    let out := storeU24le (((paClamp r.1 (-0x80000000) 0x7FFFFFFF) % 0x100000000).toNat / 256)
    let channel' := if channel + 1 ≥ channels then 0 else channel + 1
    let rest := pa_mix_s24ne_c r.2 channels n channel'
    (out ++ rest.1, rest.2)

/-- Inner loop body of `pa_mix_s24re_c`: byte-swapped 3-byte load. -/
def s24reStep (channel : Nat) (a : Int × List MixStream) (m : MixStream) : Int × List MixStream :=
  let cv := unionI (m.linear.getD channel 0)
  let sum :=
    if cv > 0 then
      let v : Int := i32 (loadU24be m.ptr * 256)
      i64 (a.1 + i64 (v * cv) / 65536)
    else a.1
  (sum, a.2 ++ [{ m with ptr := m.ptr.drop 3 }])

/-- All streams' contributions to one `s24re` output sample slot. -/
def s24reSample (streams : List MixStream) (channel : Nat) : Int × List MixStream :=
  streams.foldl (s24reStep channel) (0, [])

/-- `pa_mix_s24re_c`: byte-swapped variant of `pa_mix_s24ne_c`. -/
def pa_mix_s24re_c : List MixStream → Nat → Nat → Nat → List Nat × List MixStream
  | streams, _, 0, _ => ([], streams)
  | streams, _, 1, channel =>
    let r := s24reSample streams channel
    (storeU24be (((paClamp r.1 (-0x80000000) 0x7FFFFFFF) % 0x100000000).toNat / 256), r.2)
  | streams, _, 2, channel =>
    let r := s24reSample streams channel
    (storeU24be (((paClamp r.1 (-0x80000000) 0x7FFFFFFF) % 0x100000000).toNat / 256), r.2)
  | streams, channels, n+3, channel =>
    let r := s24reSample streams channel
    let out := storeU24be (((paClamp r.1 (-0x80000000) 0x7FFFFFFF) % 0x100000000).toNat / 256)
    let channel' := if channel + 1 ≥ channels then 0 else channel + 1
    let rest := pa_mix_s24re_c r.2 channels n channel'
    (out ++ rest.1, rest.2)

/-- Inner loop body of `pa_mix_s24_32ne_c`: full 32-bit load, `<< 8`
reinterpreted as `int32_t`, pointer advanced by `sizeof(int32_t)`. -/
def s24_32neStep (channel : Nat) (a : Int × List MixStream) (m : MixStream) : Int × List MixStream :=
  let cv := unionI (m.linear.getD channel 0)
  let sum :=
    if cv > 0 then
      let v : Int := i32 (loadU32le m.ptr * 256)
      i64 (a.1 + i64 (v * cv) / 65536)
    else a.1
  (sum, a.2 ++ [{ m with ptr := m.ptr.drop 4 }])

/-- All streams' contributions to one `s24_32ne` output sample slot. -/
def s24_32neSample (streams : List MixStream) (channel : Nat) : Int × List MixStream :=
  streams.foldl (s24_32neStep channel) (0, [])

/-- `pa_mix_s24_32ne_c`. -/
def pa_mix_s24_32ne_c : List MixStream → Nat → Nat → Nat → List Nat × List MixStream
  | streams, _, 0, _ => ([], streams)
  | streams, _, 1, channel =>
    let r := s24_32neSample streams channel
    (storeU32le (((paClamp r.1 (-0x80000000) 0x7FFFFFFF) % 0x100000000).toNat / 256), r.2)
  | streams, _, 2, channel =>
    let r := s24_32neSample streams channel
    (storeU32le (((paClamp r.1 (-0x80000000) 0x7FFFFFFF) % 0x100000000).toNat / 256), r.2)
  | streams, _, 3, channel =>
    let r := s24_32neSample streams channel
    (storeU32le (((paClamp r.1 (-0x80000000) 0x7FFFFFFF) % 0x100000000).toNat / 256), r.2)
  | streams, channels, n+4, channel =>
    let r := s24_32neSample streams channel
    let out := storeU32le (((paClamp r.1 (-0x80000000) 0x7FFFFFFF) % 0x100000000).toNat / 256)
    let channel' := if channel + 1 ≥ channels then 0 else channel + 1
    let rest := pa_mix_s24_32ne_c r.2 channels n channel'
    (out ++ rest.1, rest.2)

/-- Inner loop body of `pa_mix_s24_32re_c`.  Note: the source advances the
stream pointer by `3` here (line 370 of `mix.c`), not by
`sizeof(uint32_t)` as the 4-byte load on line 366 and the sibling
`pa_mix_s24_32ne_c` would require; the embedding reproduces that. -/
def s24_32reStep (channel : Nat) (a : Int × List MixStream) (m : MixStream) : Int × List MixStream :=
  let cv := unionI (m.linear.getD channel 0)
  let sum :=
    if cv > 0 then
      let v : Int := i32 (loadU32be m.ptr * 256)
      i64 (a.1 + i64 (v * cv) / 65536)
    else a.1
  (sum, a.2 ++ [{ m with ptr := m.ptr.drop 3 }])

/-- All streams' contributions to one `s24_32re` output sample slot. -/
def s24_32reSample (streams : List MixStream) (channel : Nat) : Int × List MixStream :=
  streams.foldl (s24_32reStep channel) (0, [])

/-- `pa_mix_s24_32re_c`: byte-swapped variant of `pa_mix_s24_32ne_c`
(destination advances by `sizeof(uint32_t)`, stream pointers by 3 as in
the source). -/
def pa_mix_s24_32re_c : List MixStream → Nat → Nat → Nat → List Nat × List MixStream
  | streams, _, 0, _ => ([], streams)
  | streams, _, 1, channel =>
    let r := s24_32reSample streams channel
    (storeU32be (((paClamp r.1 (-0x80000000) 0x7FFFFFFF) % 0x100000000).toNat / 256), r.2)
  | streams, _, 2, channel =>
    let r := s24_32reSample streams channel
    (storeU32be (((paClamp r.1 (-0x80000000) 0x7FFFFFFF) % 0x100000000).toNat / 256), r.2)
  | streams, _, 3, channel =>
    let r := s24_32reSample streams channel
    (storeU32be (((paClamp r.1 (-0x80000000) 0x7FFFFFFF) % 0x100000000).toNat / 256), r.2)
  | streams, channels, n+4, channel =>
    let r := s24_32reSample streams channel
    let out := storeU32be (((paClamp r.1 (-0x80000000) 0x7FFFFFFF) % 0x100000000).toNat / 256)
    let channel' := if channel + 1 ≥ channels then 0 else channel + 1
    let rest := pa_mix_s24_32re_c r.2 channels n channel'
    (out ++ rest.1, rest.2)

/-- Inner loop body of `pa_mix_u8_c`: unbias by `0x80`, single 32-bit
multiply `(v * cv) >> 16`, pointer advanced by 1. -/
def u8Step (channel : Nat) (a : Int × List MixStream) (m : MixStream) : Int × List MixStream :=
  let cv := unionI (m.linear.getD channel 0)
  let sum :=
    if cv > 0 then
      let v : Int := (byteAt m.ptr 0 : Int) - 0x80
      i32 (a.1 + i32 (i32 (v * cv) / 65536))
    else a.1
  (sum, a.2 ++ [{ m with ptr := m.ptr.drop 1 }])

/-- All streams' contributions to one `u8` output sample slot. -/
def u8Sample (streams : List MixStream) (channel : Nat) : Int × List MixStream :=
  streams.foldl (u8Step channel) (0, [])

/-- `pa_mix_u8_c`: clamp to `[-0x80, 0x7F]`, re-bias by `+0x80`. -/
def pa_mix_u8_c : List MixStream → Nat → Nat → Nat → List Nat × List MixStream
  | streams, _, 0, _ => ([], streams)
  | streams, channels, n+1, channel =>
    let r := u8Sample streams channel
    let out := [((paClamp r.1 (-0x80) 0x7F + 0x80) % 256).toNat]
    let channel' := if channel + 1 ≥ channels then 0 else channel + 1
    let rest := pa_mix_u8_c r.2 channels n channel'
    (out ++ rest.1, rest.2)

/-- Inner loop body of `pa_mix_ulaw_c`: the external codec expand table
`st_ulaw2linear16` enters as the parameter `expand`; the hi/lo split gain
rule of the 16-bit kernels is used on the expanded sample. -/
def ulawStep (expand : Nat → Int) (channel : Nat) (a : Int × List MixStream) (m : MixStream) :
    Int × List MixStream :=
  let cv := unionI (m.linear.getD channel 0)
  let sum :=
    if cv > 0 then
      let hi := cv / 65536
      let lo := cv % 65536
      let v := i32 (expand (byteAt m.ptr 0))
      i32 (a.1 + i32 (i32 (v * lo) / 65536 + i32 (v * hi)))
    else a.1
  (sum, a.2 ++ [{ m with ptr := m.ptr.drop 1 }])

/-- All streams' contributions to one `ulaw` output sample slot. -/
def ulawSample (expand : Nat → Int) (streams : List MixStream) (channel : Nat) :
    Int × List MixStream :=
  streams.foldl (ulawStep expand channel) (0, [])

/-- `pa_mix_ulaw_c`: clamp to 16-bit range, shift right by 2 and compress
through the external `st_14linear2ulaw` table (parameter `compress`). -/
def pa_mix_ulaw_c (expand : Nat → Int) (compress : Int → Nat) :
    List MixStream → Nat → Nat → Nat → List Nat × List MixStream
  | streams, _, 0, _ => ([], streams)
  | streams, channels, n+1, channel =>
    let r := ulawSample expand streams channel
    let out := [compress (paClamp r.1 (-0x8000) 0x7FFF / 4) % 256]
    let channel' := if channel + 1 ≥ channels then 0 else channel + 1
    let rest := pa_mix_ulaw_c expand compress r.2 channels n channel'
    (out ++ rest.1, rest.2)

/-- Inner loop body of `pa_mix_alaw_c` (external expand table
`st_alaw2linear16` as parameter). -/
def alawStep (expand : Nat → Int) (channel : Nat) (a : Int × List MixStream) (m : MixStream) :
    Int × List MixStream :=
  let cv := unionI (m.linear.getD channel 0)
  let sum :=
    if cv > 0 then
      let hi := cv / 65536
      let lo := cv % 65536
      let v := i32 (expand (byteAt m.ptr 0))
      i32 (a.1 + i32 (i32 (v * lo) / 65536 + i32 (v * hi)))
    else a.1
  (sum, a.2 ++ [{ m with ptr := m.ptr.drop 1 }])

/-- All streams' contributions to one `alaw` output sample slot. -/
def alawSample (expand : Nat → Int) (streams : List MixStream) (channel : Nat) :
    Int × List MixStream :=
  streams.foldl (alawStep expand channel) (0, [])

/-- `pa_mix_alaw_c`: clamp to 16-bit range, shift right by 3 and compress
through the external `st_13linear2alaw` table (parameter `compress`). -/
def pa_mix_alaw_c (expand : Nat → Int) (compress : Int → Nat) :
    List MixStream → Nat → Nat → Nat → List Nat × List MixStream
  | streams, _, 0, _ => ([], streams)
  | streams, channels, n+1, channel =>
    let r := alawSample expand streams channel
    let out := [compress (paClamp r.1 (-0x8000) 0x7FFF / 8) % 256]
    let channel' := if channel + 1 ≥ channels then 0 else channel + 1
    let rest := pa_mix_alaw_c expand compress r.2 channels n channel'
    (out ++ rest.1, rest.2)

/-!
## IEEE-754 binary32 model

The float kernels use the host's `float` arithmetic.  We model binary32
values as their 32-bit patterns (`Nat`), with exact rational semantics
and round-to-nearest-even, the rounding mode in effect in the audio
path.
-/

/-- Sign bit of a binary32 pattern. -/
def f32sign (x : Nat) : Bool := x / 0x80000000 % 2 == 1

/-- Exponent field of a binary32 pattern. -/
def f32exp (x : Nat) : Nat := x / 0x800000 % 256

/-- Fraction field of a binary32 pattern. -/
def f32frac (x : Nat) : Nat := x % 0x800000

def f32isNaN (x : Nat) : Bool := f32exp x == 255 && f32frac x != 0

def f32isInf (x : Nat) : Bool := f32exp x == 255 && f32frac x == 0

def f32isZero (x : Nat) : Bool := f32exp x == 0 && f32frac x == 0

/-- Pack sign, exponent field and fraction field into a pattern. -/
def f32pack (s : Bool) (e f : Nat) : Nat := (if s then 0x80000000 else 0) + e * 0x800000 + f

def f32zero (s : Bool) : Nat := f32pack s 0 0

def f32inf (s : Bool) : Nat := f32pack s 255 0

/-- The canonical quiet NaN pattern. -/
def f32qNaN : Nat := 0x7FC00000

/-- Integer mantissa of a finite binary32 pattern: its magnitude is
`f32magM x * 2 ^ f32magE x`. -/
def f32magM (x : Nat) : Nat := if f32exp x = 0 then f32frac x else 0x800000 + f32frac x

/-- Scale exponent of a finite binary32 pattern (dyadic representation,
see `f32magM`). -/
def f32magE (x : Nat) : Int := (if f32exp x = 0 then 1 else (f32exp x : Int)) - 150

/-- Whether `2 ^ t ≤ P * 2 ^ e` for a positive integer mantissa `P`
(comparison of a power of two against a positive dyadic). -/
def leThreshold (P : Nat) (e t : Int) : Bool :=
  decide (t ≤ e) || decide (2 ^ (t - e).toNat ≤ P)

/-- The binade exponent of the positive dyadic `P * 2 ^ e`, clamped to
the binary32 exponent range: the largest `b ∈ [-126, 127]` with
`2 ^ b ≤ P * 2 ^ e`, or `-126` in the subnormal range. -/
def f32binade (P : Nat) (e : Int) : Int :=
  -126 + ((List.range 253).countP (fun (k : Nat) => leThreshold P e ((k : Int) - 125)))

/-- `P * 2 ^ d` rounded to the nearest integer, ties to even (exact when
`d ≥ 0`). -/
def rneShift (P : Nat) (d : Int) : Nat :=
  if 0 ≤ d then P * 2 ^ d.toNat
  else
    let k := (-d).toNat
    let q := P / 2 ^ k
    let r := P % 2 ^ k
    let half := 2 ^ (k - 1)
    if r < half then q else if half < r then q + 1 else if q % 2 = 0 then q else q + 1

/-- Round the positive dyadic `P * 2 ^ e` to binary32 (nearest-even),
attaching sign `s`.  Overflow produces an infinity, underflow a signed
zero or subnormal. -/
def roundF32pos (P : Nat) (e : Int) (s : Bool) : Nat :=
  let b := f32binade P e
  let n := rneShift P (e + 23 - b)
  if n ≥ 0x1000000 then
    if b + 1 > 127 then f32inf s else f32pack s (b + 128).toNat 0
  else if n ≥ 0x800000 then f32pack s (b + 127).toNat (n - 0x800000)
  else f32pack s 0 n

/-- binary32 multiplication (round to nearest, ties to even). -/
def f32mul (x y : Nat) : Nat :=
  if f32isNaN x || f32isNaN y then f32qNaN
  else if f32isInf x || f32isInf y then
    if f32isZero x || f32isZero y then f32qNaN
    else f32inf (f32sign x != f32sign y)
  else if f32isZero x || f32isZero y then f32zero (f32sign x != f32sign y)
  else roundF32pos (f32magM x * f32magM y) (f32magE x + f32magE y) (f32sign x != f32sign y)

/-- Signed integer mantissa of a finite binary32 pattern. -/
def f32signedM (x : Nat) : Int := if f32sign x then -(f32magM x : Int) else (f32magM x : Int)

/-- binary32 addition (round to nearest, ties to even).  The exact sum
is formed at the smaller scale exponent; an exact zero sum of
oppositely-signed operands is `+0`, per IEEE-754 round-to-nearest. -/
def f32add (x y : Nat) : Nat :=
  if f32isNaN x || f32isNaN y then f32qNaN
  else if f32isInf x then
    if f32isInf y && (f32sign x != f32sign y) then f32qNaN else x
  else if f32isInf y then y
  else
    let e := min (f32magE x) (f32magE y)
    let S := f32signedM x * 2 ^ (f32magE x - e).toNat + f32signedM y * 2 ^ (f32magE y - e).toNat
    if S = 0 then
      if f32sign x = f32sign y then f32zero (f32sign x) else f32zero false
    else roundF32pos S.natAbs e (decide (S < 0))

/-- The C comparison `cv > 0` on a binary32 pattern: true exactly for
positive non-NaN, nonzero values (including `+inf`). -/
def f32gt0 (x : Nat) : Bool := !f32isNaN x && !f32sign x && !f32isZero x

/-- Inner loop body of `pa_mix_float32ne_c`: the accumulator and the
gain slot (`m->linear[channel].f`) are binary32 patterns. -/
def float32neStep (channel : Nat) (a : Nat × List MixStream) (m : MixStream) :
    Nat × List MixStream :=
  let cv := m.linear.getD channel 0 % 0x100000000
  let sum :=
    if f32gt0 cv then f32add a.1 (f32mul (loadU32le m.ptr) cv)
    else a.1
  (sum, a.2 ++ [{ m with ptr := m.ptr.drop 4 }])

/-- All streams' contributions to one `float32ne` output sample slot,
starting from `float sum = 0` (pattern `+0.0`). -/
def float32neSample (streams : List MixStream) (channel : Nat) : Nat × List MixStream :=
  streams.foldl (float32neStep channel) (f32zero false, [])

/-- `pa_mix_float32ne_c`: no clamp, the accumulated float is stored. -/
def pa_mix_float32ne_c : List MixStream → Nat → Nat → Nat → List Nat × List MixStream
  | streams, _, 0, _ => ([], streams)
  | streams, _, 1, channel =>
    let r := float32neSample streams channel
    (storeU32le r.1, r.2)
  | streams, _, 2, channel =>
    let r := float32neSample streams channel
    (storeU32le r.1, r.2)
  | streams, _, 3, channel =>
    let r := float32neSample streams channel
    (storeU32le r.1, r.2)
  | streams, channels, n+4, channel =>
    let r := float32neSample streams channel
    let out := storeU32le r.1
    let channel' := if channel + 1 ≥ channels then 0 else channel + 1
    let rest := pa_mix_float32ne_c r.2 channels n channel'
    (out ++ rest.1, rest.2)

/-- Inner loop body of `pa_mix_float32re_c`: `PA_FLOAT32_SWAP` on the
load, i.e. the sample pattern is assembled big-endian. -/
def float32reStep (channel : Nat) (a : Nat × List MixStream) (m : MixStream) :
    Nat × List MixStream :=
  let cv := m.linear.getD channel 0 % 0x100000000
  let sum :=
    if f32gt0 cv then f32add a.1 (f32mul (loadU32be m.ptr) cv)
    else a.1
  (sum, a.2 ++ [{ m with ptr := m.ptr.drop 4 }])

/-- All streams' contributions to one `float32re` output sample slot. -/
def float32reSample (streams : List MixStream) (channel : Nat) : Nat × List MixStream :=
  streams.foldl (float32reStep channel) (f32zero false, [])

/-- `pa_mix_float32re_c`: byte-swapped store of the accumulated float. -/
def pa_mix_float32re_c : List MixStream → Nat → Nat → Nat → List Nat × List MixStream
  | streams, _, 0, _ => ([], streams)
  | streams, _, 1, channel =>
    let r := float32reSample streams channel
    (storeU32be r.1, r.2)
  | streams, _, 2, channel =>
    let r := float32reSample streams channel
    (storeU32be r.1, r.2)
  | streams, _, 3, channel =>
    let r := float32reSample streams channel
    (storeU32be r.1, r.2)
  | streams, channels, n+4, channel =>
    let r := float32reSample streams channel
    let out := storeU32be r.1
    let channel' := if channel + 1 ≥ channels then 0 else channel + 1
    let rest := pa_mix_float32re_c r.2 channels n channel'
    (out ++ rest.1, rest.2)

/-!
## Dispatch, orchestrator and single-buffer volume path
-/

/-- The concrete sample formats of the dispatch tables, with `ne`/`re`
already resolved against the (little-endian) host byte order, as the
table initializers do once at build time. -/
inductive SampleFormat where
  | u8 | alaw | ulaw | s16ne | s16re | float32ne | float32re
  | s32ne | s32re | s24ne | s24re | s24_32ne | s24_32re
deriving DecidableEq, Repr, Inhabited

/-- Bytes per sample of each format. -/
def sampleSize : SampleFormat → Nat
  | .u8 | .alaw | .ulaw => 1
  | .s16ne | .s16re => 2
  | .s24ne | .s24re => 3
  | _ => 4

/-- `do_mix_table`: format tag to mixing kernel.  The companded codec
tables (`st_ulaw2linear16`, `st_14linear2ulaw`, `st_alaw2linear16`,
`st_13linear2alaw`) are external collaborators and enter as parameters. -/
def do_mix_table (ulawExp : Nat → Int) (ulawComp : Int → Nat)
    (alawExp : Nat → Int) (alawComp : Int → Nat) :
    SampleFormat → List MixStream → Nat → Nat → Nat → List Nat × List MixStream
  | .u8 => pa_mix_u8_c
  | .alaw => pa_mix_alaw_c alawExp alawComp
  | .ulaw => pa_mix_ulaw_c ulawExp ulawComp
  | .s16ne => pa_mix_s16ne_c
  | .s16re => pa_mix_s16re_c
  | .float32ne => pa_mix_float32ne_c
  | .float32re => pa_mix_float32re_c
  | .s32ne => pa_mix_s32ne_c
  | .s32re => pa_mix_s32re_c
  | .s24ne => pa_mix_s24ne_c
  | .s24re => pa_mix_s24re_c
  | .s24_32ne => pa_mix_s24_32ne_c
  | .s24_32re => pa_mix_s24_32re_c

def PA_VOLUME_NORM : Nat := 0x10000

def PA_VOLUME_MUTED : Nat := 0

/-- `pa_cvolume_channels_equal_to`: every channel's volume equals `v`. -/
def pa_cvolume_channels_equal_to (vol : List Nat) (v : Nat) : Bool := vol.all (· == v)

/-- `pa_cvolume_is_muted`: every channel at `PA_VOLUME_MUTED`. -/
def pa_cvolume_is_muted (vol : List Nat) : Bool := pa_cvolume_channels_equal_to vol PA_VOLUME_MUTED

/-- `pa_cvolume_reset`: all `channels` channels at `PA_VOLUME_NORM`. -/
def pa_cvolume_reset (channels : Nat) : List Nat := List.replicate channels PA_VOLUME_NORM

/-- Modelled from the spec: the per-format silence byte written by the
external `pa_silence_memory` / `pa_silence_memchunk` (sample-util.c is
not part of this core) — all-zero for linear and float formats, the
format's bias byte for the unsigned and companded formats. -/
def silenceByte : SampleFormat → Nat
  | .u8 => 0x80
  | .alaw => 0xD5
  | .ulaw => 0xFF
  | _ => 0

/-- Modelled from the spec: `pa_silence_memory(data, length, spec)` fills
the first `length` destination bytes with the format's silence pattern. -/
def pa_silence_memory (dest : List Nat) (length : Nat) (fmt : SampleFormat) : List Nat :=
  List.replicate length (silenceByte fmt) ++ dest.drop length

/-- One `pa_mix_info` as the caller passes it: the memchunk's bytes and
the stream's own channel volume. -/
structure MixInfo where
  chunk : List Nat
  volume : List Nat
deriving DecidableEq, Repr, Inhabited

/-- Result of a `pa_mix` call: the destination buffer, the returned
length, and how many stream buffers were acquired and released. -/
structure MixResult where
  dest : List Nat
  ret : Nat
  acquired : Nat
  released : Nat
deriving DecidableEq, Repr

/-- `pa_mix`.  `gains` is the output of
`calc_stream_volumes_table[spec->format]` — one 32-bit union slot per
stream per channel, computed from the stream volumes, the output volume
and the external `pa_sw_volume_to_linear` curve in floating point; since
that computation lives outside this core's integer semantics it enters
as an input, universally quantified in the theorems.  The companded
codec tables likewise enter as parameters. -/
def pa_mix (ulawExp : Nat → Int) (ulawComp : Int → Nat)
    (alawExp : Nat → Int) (alawComp : Int → Nat) (fmt : SampleFormat)
    (streams : List MixInfo) (gains : List (List Nat)) (dest : List Nat) (length : Nat)
    (channels : Nat) (volume : Option (List Nat)) (mute : Bool) : MixResult :=
  let vol := volume.getD (pa_cvolume_reset channels)
  if mute || pa_cvolume_is_muted vol || streams.length = 0 then
    { dest := pa_silence_memory dest length fmt, ret := length, acquired := 0, released := 0 }
  else
    let len := streams.foldl (fun l m => if l > m.chunk.length then m.chunk.length else l) length
    let ms := List.zipWith (fun (m : MixInfo) g => MixStream.mk m.chunk g) streams gains
    let out := (do_mix_table ulawExp ulawComp alawExp alawComp fmt ms channels len 0).1
    { dest := out ++ dest.drop out.length, ret := len,
      acquired := streams.length, released := streams.length }

/-- The shared padding loop of the volume linearizers: for
`padding = 0 .. 31`, slot `n + padding` is assigned the current value of
slot `padding` (the slots beyond the real range start uninitialized; a
placeholder suffix stands for them and is never read when `n ≥ 1`). -/
def volumePad {α : Type} [Inhabited α] (lin : List α) (n : Nat) : List α :=
  (List.range 32).foldl (fun l padding => l.set (n + padding) (l.getD padding default)) lin

/-- `calc_linear_integer_volume`: each real channel's slot is
`(int32_t) lrint(pa_sw_volume_to_linear(v) * 0x10000)` — the composition
of the external volume curve and float arithmetic, modelled by the
parameter `conv` — followed by the 32-slot padding loop. -/
def calc_linear_integer_volume (conv : Nat → Int) (volume : List Nat) : List Int :=
  volumePad (volume.map conv ++ List.replicate 32 0) volume.length

/-- `calc_linear_float_volume`: as `calc_linear_integer_volume` but each
slot holds `(float) pa_sw_volume_to_linear(v)`, modelled as a binary32
pattern produced by the external parameter `conv`. -/
def calc_linear_float_volume (conv : Nat → Nat) (volume : List Nat) : List Nat :=
  volumePad (volume.map conv ++ List.replicate 32 0) volume.length

/-- `calc_volume_table[spec->format]`: float formats use the float
linearizer, all others the integer one; the integer slots are its
`int32_t` values reinterpreted as the 32-bit union patterns. -/
def calc_volume_table (convI : Nat → Int) (convF : Nat → Nat)
    (fmt : SampleFormat) (volume : List Nat) : List Nat :=
  match fmt with
  | .float32ne | .float32re => calc_linear_float_volume convF volume
  | _ => (calc_linear_integer_volume convI volume).map (fun i => (i % 0x100000000).toNat)

/-- `pa_volume_memchunk`.  `isSilence` is the external
`pa_memblock_is_silence` flag on the chunk's memblock; `do_volume` is the
per-format in-place volume kernel fetched through the external
`pa_get_volume_func` (those kernels live in other translation units);
`convI`/`convF` model the external volume curve as in the linearizers. -/
def pa_volume_memchunk (isSilence : Bool)
    (do_volume : List Nat → List Nat → Nat → Nat → List Nat)
    (convI : Nat → Int) (convF : Nat → Nat)
    (buf : List Nat) (fmt : SampleFormat) (channels : Nat) (volume : List Nat) : List Nat :=
  if isSilence then buf
  else if pa_cvolume_channels_equal_to volume PA_VOLUME_NORM then buf
  else if pa_cvolume_channels_equal_to volume PA_VOLUME_MUTED then
    List.replicate buf.length (silenceByte fmt)
  else do_volume buf (calc_volume_table convI convF fmt volume) channels buf.length

/-!
## Auxiliary notions for stating the claims
-/

/-- Byte-swap every (32-bit) 4-byte group of a buffer — the "byte-swapped
input bytes" / "byte-swapping the output" operation of the endianness
equivalence property. -/
def swap32buf : List Nat → List Nat
  | b0 :: b1 :: b2 :: b3 :: rest => b3 :: b2 :: b1 :: b0 :: swap32buf rest
  | l => l

/-- The hi/lo split gain application of the 16-bit and companded kernels,
as exact integer arithmetic: `((v*lo) >> 16) + v*hi` with `lo`/`hi` the
16-bit halves of the Q16.16 gain. -/
def hiLoGain (v cv : Int) : Int := (v * (cv % 65536)) / 65536 + v * (cv / 65536)

/-- The single wide multiply gain application `(v * cv) >> 16` of the
32-bit, 24-bit, 24-in-32 and 8-bit kernels, as exact integer
arithmetic. -/
def wideGain (v cv : Int) : Int := (v * cv) / 65536

/-- The exact (unwrapped) contribution of one stream to an `s16ne`
output sample slot: what the kernel's per-stream arithmetic denotes
without accumulator wrap-around. -/
def s16neContrib (channel : Nat) (m : MixStream) : Int :=
  let cv := unionI (m.linear.getD channel 0)
  if cv > 0 then hiLoGain (loadS16ne m.ptr) cv else 0

/-- Exact contribution of one stream to an `s16re` output sample slot. -/
def s16reContrib (channel : Nat) (m : MixStream) : Int :=
  let cv := unionI (m.linear.getD channel 0)
  if cv > 0 then hiLoGain (loadS16re m.ptr) cv else 0

/-- Exact contribution of one stream to an `s32ne` output sample slot. -/
def s32neContrib (channel : Nat) (m : MixStream) : Int :=
  let cv := unionI (m.linear.getD channel 0)
  if cv > 0 then wideGain (loadS32ne m.ptr) cv else 0

/-- Exact contribution of one stream to an `s32re` output sample slot. -/
def s32reContrib (channel : Nat) (m : MixStream) : Int :=
  let cv := unionI (m.linear.getD channel 0)
  if cv > 0 then wideGain (loadS32re m.ptr) cv else 0

/-- Exact contribution of one stream to an `s24ne` output sample slot. -/
def s24neContrib (channel : Nat) (m : MixStream) : Int :=
  let cv := unionI (m.linear.getD channel 0)
  if cv > 0 then wideGain (i32 (loadU24le m.ptr * 256)) cv else 0

/-- Exact contribution of one stream to an `s24re` output sample slot. -/
def s24reContrib (channel : Nat) (m : MixStream) : Int :=
  let cv := unionI (m.linear.getD channel 0)
  if cv > 0 then wideGain (i32 (loadU24be m.ptr * 256)) cv else 0

/-- Exact contribution of one stream to an `s24_32ne` output sample
slot. -/
def s24_32neContrib (channel : Nat) (m : MixStream) : Int :=
  let cv := unionI (m.linear.getD channel 0)
  if cv > 0 then wideGain (i32 (loadU32le m.ptr * 256)) cv else 0

/-- Exact contribution of one stream to an `s24_32re` output sample
slot. -/
def s24_32reContrib (channel : Nat) (m : MixStream) : Int :=
  let cv := unionI (m.linear.getD channel 0)
  if cv > 0 then wideGain (i32 (loadU32be m.ptr * 256)) cv else 0

/-- Exact contribution of one stream to a `u8` output sample slot. -/
def u8Contrib (channel : Nat) (m : MixStream) : Int :=
  let cv := unionI (m.linear.getD channel 0)
  if cv > 0 then wideGain ((byteAt m.ptr 0 : Int) - 0x80) cv else 0

/-- Exact contribution of one stream to a `ulaw` output sample slot. -/
def ulawContrib (expand : Nat → Int) (channel : Nat) (m : MixStream) : Int :=
  let cv := unionI (m.linear.getD channel 0)
  if cv > 0 then hiLoGain (i32 (expand (byteAt m.ptr 0))) cv else 0

/-- Exact contribution of one stream to an `alaw` output sample slot. -/
def alawContrib (expand : Nat → Int) (channel : Nat) (m : MixStream) : Int :=
  let cv := unionI (m.linear.getD channel 0)
  if cv > 0 then hiLoGain (i32 (expand (byteAt m.ptr 0))) cv else 0

/-- The exact accumulated sum of a sample slot: the sum of all streams'
exact contributions, with no accumulator width limit. -/
def idealSum (contrib : MixStream → Int) (streams : List MixStream) : Int :=
  (streams.map contrib).sum

/-- The per-sample rule C6 attributes to the 8-bit unsigned kernel,
written from the spec's words for comparison with `pa_mix_u8_c`: hi/lo
split gain application, clamp to `[-0x8000, 0x7FFF]`, then re-bias by
`+0x80` and write the unsigned byte. -/
def claimedU8Sample (streams : List MixStream) (channel : Nat) : Nat :=
  let sum := idealSum (fun m =>
    let cv := unionI (m.linear.getD channel 0)
    if cv > 0 then hiLoGain ((byteAt m.ptr 0 : Int) - 0x80) cv else 0) streams
  ((paClamp sum (-0x8000) 0x7FFF + 0x80) % 256).toNat

example :
    pa_mix_s16ne_c [⟨[0x34, 0x12, 0x01, 0x00], [0x10000]⟩] 1 4 0 =
      ([0x34, 0x12, 0x01, 0x00], [⟨[], [0x10000]⟩]) := by decide

example :
    pa_mix_s16re_c [⟨[0x12, 0x34], [0x10000]⟩] 1 2 0 =
      ([0x12, 0x34], [⟨[], [0x10000]⟩]) := by decide

example :
    pa_mix_s24_32ne_c [⟨[1, 2, 3, 0, 4, 5, 6, 0], [0x10000]⟩] 1 8 0 =
      ([1, 2, 3, 0, 4, 5, 6, 0], [⟨[], [0x10000]⟩]) := by decide

-- stride bug: after two samples the re stream has consumed only 6 bytes
example :
    pa_mix_s24_32re_c [⟨[0, 3, 2, 1, 0, 6, 5, 4], [0x10000]⟩] 1 8 0 =
      ([0, 3, 2, 1, 0, 0, 6, 5], [⟨[5, 4], [0x10000]⟩]) := by decide

/-!
## Basic arithmetic lemmas about the wrapping helpers
-/

theorem i16_eq_self (n : Int) (h1 : -0x8000 ≤ n) (h2 : n ≤ 0x7FFF) : i16 n = n := by
  unfold i16; omega

theorem i32_eq_self (n : Int) (h1 : -0x80000000 ≤ n) (h2 : n ≤ 0x7FFFFFFF) : i32 n = n := by
  unfold i32; omega

theorem i64_eq_self (n : Int) (h1 : -0x8000000000000000 ≤ n)
    (h2 : n ≤ 0x7FFFFFFFFFFFFFFF) : i64 n = n := by
  unfold i64; omega

theorem i16_mem (n : Int) : -0x8000 ≤ i16 n ∧ i16 n ≤ 0x7FFF := by
  unfold i16; omega

theorem i32_mem (n : Int) : -0x80000000 ≤ i32 n ∧ i32 n ≤ 0x7FFFFFFF := by
  unfold i32; omega

theorem i64_mem (n : Int) : -0x8000000000000000 ≤ i64 n ∧ i64 n ≤ 0x7FFFFFFFFFFFFFFF := by
  unfold i64; omega

theorem unionI_mem (u : Nat) : -0x80000000 ≤ unionI u ∧ unionI u ≤ 0x7FFFFFFF := by
  unfold unionI; exact i32_mem _

theorem paClamp_mem (v lo hi : Int) (h : lo ≤ hi) :
    lo ≤ paClamp v lo hi ∧ paClamp v lo hi ≤ hi := by
  unfold paClamp; split <;> [omega; (split <;> omega)]

/-!
## C2, C3: the `s24_32re` stream stride
-/

/-- C2: "For every integer sample format and every input buffer, running
the reversed-endian mixing kernel on byte-swapped input bytes produces
the same bytes as byte-swapping the native-endian kernel's output on the
original input."  This fails on the code for the 24-in-32 format: with
two 4-byte samples and unity gain, `pa_mix_s24_32re_c` advances the
stream pointer by only 3 bytes per sample (mix.c line 370) while reading
4-byte samples, so from the second sample on it decodes misaligned
bytes.  The theorem evaluates both kernels at the failing input. -/
theorem s24_32re_swap_equivalence_fails :
    (pa_mix_s24_32re_c [⟨swap32buf [1, 2, 3, 0, 4, 5, 6, 0], [0x10000]⟩] 1 8 0).1 ≠
      swap32buf ((pa_mix_s24_32ne_c [⟨[1, 2, 3, 0, 4, 5, 6, 0], [0x10000]⟩] 1 8 0).1) := by
  decide

/-- C3: "In every mixing kernel ... the stream's read cursor is advanced
by exactly that format's per-sample byte stride (... 4 for ... 24-in-32
...)."  This fails on the code for `pa_mix_s24_32re_c`: mixing two
samples out of an 8-byte stream buffer leaves the cursor 6 bytes in
(stride 3) instead of 8 (stride 4); the sibling native-endian kernel
advances by 4 as the claim states. -/
theorem s24_32re_cursor_stride_is_three :
    (pa_mix_s24_32ne_c [⟨List.replicate 8 0, [0x10000]⟩] 1 8 0).2 =
      [⟨[], [0x10000]⟩] ∧
    (pa_mix_s24_32re_c [⟨List.replicate 8 0, [0x10000]⟩] 1 8 0).2 =
      [⟨[0, 0], [0x10000]⟩] := by
  decide

/-!
## C4: the short-circuit silence path of `pa_mix`
-/

/-- C4: if `mute` is set, or the (effective) output volume is muted on
every channel, or there are zero streams, `pa_mix` fills the first
`length` destination bytes with the format's silence pattern, returns
`length` unchanged, and acquires (and releases) no stream buffer. -/
theorem pa_mix_silence_path (ulawExp : Nat → Int) (ulawComp : Int → Nat)
    (alawExp : Nat → Int) (alawComp : Int → Nat) (fmt : SampleFormat)
    (streams : List MixInfo) (gains : List (List Nat)) (dest : List Nat)
    (length channels : Nat) (volume : Option (List Nat)) (mute : Bool)
    (h : mute = true ∨
      pa_cvolume_is_muted (volume.getD (pa_cvolume_reset channels)) = true ∨
      streams = []) :
    pa_mix ulawExp ulawComp alawExp alawComp fmt streams gains dest length channels volume mute =
      { dest := List.replicate length (silenceByte fmt) ++ dest.drop length,
        ret := length, acquired := 0, released := 0 } := by
  unfold pa_mix pa_silence_memory
  rcases h with h | h | h
  · simp [h]
  · simp [h]
  · simp [h]

/-- Witness for `pa_mix_silence_path` at a concrete muted call. -/
theorem pa_mix_silence_path_witness :
    pa_mix (fun _ => 0) (fun _ => 0) (fun _ => 0) (fun _ => 0) .u8
      [⟨[1, 2, 3], [0x10000]⟩] [[0x10000]] [9, 9, 9, 9] 3 1 (some [0]) false =
      { dest := [0x80, 0x80, 0x80, 9], ret := 3, acquired := 0, released := 0 } := by
  have h := pa_mix_silence_path (fun _ => 0) (fun _ => 0) (fun _ => 0) (fun _ => 0) .u8
    [⟨[1, 2, 3], [0x10000]⟩] [[0x10000]] [9, 9, 9, 9] 3 1 (some [0]) false
    (Or.inr (Or.inl (by decide)))
  rw [h]; decide

/-!
## C8: identity and mute short-circuits of `pa_volume_memchunk`
-/

/-- C8: `pa_volume_memchunk` leaves a buffer untouched whenever the
memblock is flagged as silence; a Unity volume (every channel at
`PA_VOLUME_NORM`) leaves it byte-for-byte unchanged; a Muted volume
(every channel at `PA_VOLUME_MUTED`) overwrites it with exactly the
format's silence pattern regardless of prior content. -/
theorem pa_volume_memchunk_shortcuts
    (do_volume : List Nat → List Nat → Nat → Nat → List Nat)
    (convI : Nat → Int) (convF : Nat → Nat) (buf : List Nat) (fmt : SampleFormat)
    (channels : Nat) (volume : List Nat) :
    (pa_volume_memchunk true do_volume convI convF buf fmt channels volume = buf) ∧
    (pa_cvolume_channels_equal_to volume PA_VOLUME_NORM = true →
      ∀ isSilence, pa_volume_memchunk isSilence do_volume convI convF buf fmt channels volume
        = buf) ∧
    (volume ≠ [] → pa_cvolume_channels_equal_to volume PA_VOLUME_MUTED = true →
      pa_volume_memchunk false do_volume convI convF buf fmt channels volume =
        List.replicate buf.length (silenceByte fmt)) := by
  refine ⟨by simp [pa_volume_memchunk], fun hnorm isSilence => ?_, fun hne hmut => ?_⟩
  · cases isSilence <;> simp [pa_volume_memchunk, hnorm]
  · have hnotnorm : pa_cvolume_channels_equal_to volume PA_VOLUME_NORM = false := by
      cases volume with
      | nil => exact absurd rfl hne
      | cons v t =>
        have hv : v = PA_VOLUME_MUTED := by
          have := hmut
          simp [pa_cvolume_channels_equal_to, List.all_cons] at this
          exact this.1
        simp [pa_cvolume_channels_equal_to, List.all_cons, hv, PA_VOLUME_MUTED, PA_VOLUME_NORM]
    simp [pa_volume_memchunk, hnotnorm, hmut]

/-- Witness for `pa_volume_memchunk_shortcuts` at concrete inputs. -/
theorem pa_volume_memchunk_shortcuts_witness :
    (pa_volume_memchunk true (fun b _ _ _ => b) (fun _ => 0) (fun _ => 0)
        [1, 2] .u8 1 [7] = [1, 2]) ∧
    (pa_volume_memchunk false (fun b _ _ _ => b) (fun _ => 0) (fun _ => 0)
        [1, 2] .u8 1 [0x10000] = [1, 2]) ∧
    (pa_volume_memchunk false (fun b _ _ _ => b) (fun _ => 0) (fun _ => 0)
        [1, 2] .u8 1 [0] = [0x80, 0x80]) := by
  obtain ⟨h1, h2, h3⟩ := pa_volume_memchunk_shortcuts (fun b _ _ _ => b)
    (fun _ => 0) (fun _ => 0) [1, 2] .u8 1 [7]
  obtain ⟨_, h2', _⟩ := pa_volume_memchunk_shortcuts (fun b _ _ _ => b)
    (fun _ => 0) (fun _ => 0) [1, 2] .u8 1 [0x10000]
  obtain ⟨_, _, h3'⟩ := pa_volume_memchunk_shortcuts (fun b _ _ _ => b)
    (fun _ => 0) (fun _ => 0) [1, 2] .u8 1 [0]
  exact ⟨h1, h2' (by decide) false, (h3' (by decide) (by decide)).trans (by decide)⟩

/-!
## C9: cyclic padding of the volume linearizers
-/

theorem getD_set_self {α : Type} (l : List α) (i : Nat) (a d : α) (h : i < l.length) :
    (l.set i a).getD i d = a := by
  simp [List.getD_eq_getElem?_getD, List.getElem?_set_self, h]

theorem getD_set_ne {α : Type} (l : List α) (i j : Nat) (a d : α) (h : i ≠ j) :
    (l.set i a).getD j d = l.getD j d := by
  simp [List.getD_eq_getElem?_getD, List.getElem?_set_ne h]

/-- Invariant of the padding loop prefix: after `k` iterations the real
slots are untouched and padding slot `n + i` (for `i < k`) holds
`real[i % n]` — the cyclic copy from the start of the real range. -/
theorem padFold_spec {α : Type} [Inhabited α] (real pad : List α) (n : Nat)
    (hn' : n = real.length) (hn : 1 ≤ n) (hp : 32 ≤ pad.length) :
    ∀ k, k ≤ 32 →
      ((List.range k).foldl
          (fun l p => l.set (n + p) (l.getD p default)) (real ++ pad)).length
        = n + pad.length ∧
      (∀ j, j < n →
        ((List.range k).foldl
            (fun l p => l.set (n + p) (l.getD p default)) (real ++ pad)).getD j default
          = real.getD j default) ∧
      (∀ i, i < k →
        ((List.range k).foldl
            (fun l p => l.set (n + p) (l.getD p default)) (real ++ pad)).getD
            (n + i) default
          = real.getD (i % n) default) := by
  intro k
  induction k with
  | zero =>
    intro _
    refine ⟨by simp [hn'], fun j hj => ?_, fun i hi => by omega⟩
    simp [List.getD_eq_getElem?_getD, List.getElem?_append_left (hn' ▸ hj)]
  | succ k ih =>
    intro hk
    obtain ⟨ihlen, ihreal, ihpad⟩ := ih (by omega)
    rw [List.range_succ, List.foldl_append]
    set L := (List.range k).foldl
      (fun l p => l.set (n + p) (l.getD p default)) (real ++ pad) with hL
    simp only [List.foldl_cons, List.foldl_nil]
    have hlen : (L.set (n + k) (L.getD k default)).length = n + pad.length := by
      simp [List.length_set, ihlen]
    have hkval : L.getD k default = real.getD (k % n) default := by
      rcases Nat.lt_or_ge k n with hlt | hge
      · rw [ihreal k hlt, Nat.mod_eq_of_lt hlt]
      · have hi : k - n < k := by omega
        have h2 := ihpad (k - n) hi
        rw [show n + (k - n) = k by omega] at h2
        rw [h2, ← Nat.mod_eq_sub_mod hge]
    refine ⟨hlen, fun j hj => ?_, fun i hi => ?_⟩
    · rw [getD_set_ne _ _ _ _ _ (by omega), ihreal j hj]
    · rcases Nat.lt_or_ge i k with hik | hik
      · rw [getD_set_ne _ _ _ _ _ (by omega), ihpad i hik]
      · have hik' : i = k := by omega
        subst hik'
        rw [getD_set_self _ _ _ _ (by omega), hkval]

/-- C9: both volume linearizers fill padding slot `realCount + i`
(`i = 0 .. 31`) with the value of slot `i`, which amounts to cyclically
copying from the start of the just-computed real range — not to
repeating the last real channel. -/
theorem calc_linear_volume_cyclic_padding (convI : Nat → Int) (convF : Nat → Nat)
    (volume : List Nat) (hn : 1 ≤ volume.length) :
    ∀ i, i < 32 →
      ((calc_linear_integer_volume convI volume).getD (volume.length + i) 0
          = (calc_linear_integer_volume convI volume).getD i 0 ∧
        (calc_linear_integer_volume convI volume).getD (volume.length + i) 0
          = (volume.map convI).getD (i % volume.length) 0) ∧
      ((calc_linear_float_volume convF volume).getD (volume.length + i) 0
          = (calc_linear_float_volume convF volume).getD i 0 ∧
        (calc_linear_float_volume convF volume).getD (volume.length + i) 0
          = (volume.map convF).getD (i % volume.length) 0) := by
  intro i hi
  obtain ⟨hlenI, hrealI, hpadI⟩ :=
    padFold_spec (volume.map convI) (List.replicate 32 (0 : Int)) volume.length
      (by simp) (by omega) (by simp) 32 le_rfl
  obtain ⟨hlenF, hrealF, hpadF⟩ :=
    padFold_spec (volume.map convF) (List.replicate 32 (0 : Nat)) volume.length
      (by simp) (by omega) (by simp) 32 le_rfl
  have hslotI : ∀ j, j < 32 →
      (calc_linear_integer_volume convI volume).getD (volume.length + j) (default : Int)
        = (volume.map convI).getD (j % volume.length) default :=
    fun j hj => hpadI j hj
  have hslotF : ∀ j, j < 32 →
      (calc_linear_float_volume convF volume).getD (volume.length + j) (default : Nat)
        = (volume.map convF).getD (j % volume.length) default :=
    fun j hj => hpadF j hj
  have hslotI' : (calc_linear_integer_volume convI volume).getD i (default : Int)
      = (volume.map convI).getD (i % volume.length) default := by
    rcases Nat.lt_or_ge i volume.length with hlt | hge
    · have h2 : (calc_linear_integer_volume convI volume).getD i (default : Int)
          = (volume.map convI).getD i default := hrealI i hlt
      rw [Nat.mod_eq_of_lt hlt]
      exact h2
    · have h2 := hslotI (i - volume.length) (by omega)
      rw [show volume.length + (i - volume.length) = i by omega] at h2
      rw [h2, ← Nat.mod_eq_sub_mod hge]
  have hslotF' : (calc_linear_float_volume convF volume).getD i (default : Nat)
      = (volume.map convF).getD (i % volume.length) default := by
    rcases Nat.lt_or_ge i volume.length with hlt | hge
    · have h2 : (calc_linear_float_volume convF volume).getD i (default : Nat)
          = (volume.map convF).getD i default := hrealF i hlt
      rw [Nat.mod_eq_of_lt hlt]
      exact h2
    · have h2 := hslotF (i - volume.length) (by omega)
      rw [show volume.length + (i - volume.length) = i by omega] at h2
      rw [h2, ← Nat.mod_eq_sub_mod hge]
  exact ⟨⟨(hslotI i hi).trans hslotI'.symm, hslotI i hi⟩,
         ⟨(hslotF i hi).trans hslotF'.symm, hslotF i hi⟩⟩

/-- Witness for `calc_linear_volume_cyclic_padding`: two channels with
distinct values; padding slot `realCount + 2` receives channel 0's
value again, not channel 1's. -/
theorem calc_linear_volume_cyclic_padding_witness :
    ((calc_linear_integer_volume (fun v => (v : Int)) [10, 20]).getD (2 + 2) 0
        = (calc_linear_integer_volume (fun v => (v : Int)) [10, 20]).getD 2 0 ∧
      (calc_linear_integer_volume (fun v => (v : Int)) [10, 20]).getD (2 + 2) 0
        = ([10, 20].map (fun v => (v : Int))).getD (2 % 2) 0) ∧
    ((calc_linear_float_volume (fun v => v + 1) [10, 20]).getD (2 + 2) 0
        = (calc_linear_float_volume (fun v => v + 1) [10, 20]).getD 2 0 ∧
      (calc_linear_float_volume (fun v => v + 1) [10, 20]).getD (2 + 2) 0
        = ([10, 20].map (fun v => v + 1)).getD (2 % 2) 0) := by
  exact calc_linear_volume_cyclic_padding (fun v => (v : Int)) (fun v => v + 1)
    [10, 20] (by decide) 2 (by decide)

/-!
## C1: length bound and write bound of the mix path

Store width lemmas and, per kernel, the fact that a kernel asked for a
(stride-aligned) `n` destination bytes writes exactly `n` bytes.
-/

@[simp] theorem storeU16le_length (u : Nat) : (storeU16le u).length = 2 := rfl

@[simp] theorem storeS16ne_length (v : Int) : (storeS16ne v).length = 2 := rfl

@[simp] theorem storeS16re_length (v : Int) : (storeS16re v).length = 2 := rfl

@[simp] theorem storeU32le_length (u : Nat) : (storeU32le u).length = 4 := rfl

@[simp] theorem storeU32be_length (u : Nat) : (storeU32be u).length = 4 := rfl

@[simp] theorem storeS32ne_length (v : Int) : (storeS32ne v).length = 4 := rfl

@[simp] theorem storeS32re_length (v : Int) : (storeS32re v).length = 4 := rfl

@[simp] theorem storeU24le_length (u : Nat) : (storeU24le u).length = 3 := rfl

@[simp] theorem storeU24be_length (u : Nat) : (storeU24be u).length = 3 := rfl

theorem pa_mix_u8_c_len : ∀ (n : Nat) (streams : List MixStream) (channels channel : Nat),
    (pa_mix_u8_c streams channels n channel).1.length = n := by
  intro n
  induction n with
  | zero => intro streams channels channel; simp [pa_mix_u8_c]
  | succ k ih =>
    intro streams channels channel
    simp [pa_mix_u8_c, ih]

theorem pa_mix_ulaw_c_len (expand : Nat → Int) (compress : Int → Nat) :
    ∀ (n : Nat) (streams : List MixStream) (channels channel : Nat),
    (pa_mix_ulaw_c expand compress streams channels n channel).1.length = n := by
  intro n
  induction n with
  | zero => intro streams channels channel; simp [pa_mix_ulaw_c]
  | succ k ih =>
    intro streams channels channel
    simp [pa_mix_ulaw_c, ih]

theorem pa_mix_alaw_c_len (expand : Nat → Int) (compress : Int → Nat) :
    ∀ (n : Nat) (streams : List MixStream) (channels channel : Nat),
    (pa_mix_alaw_c expand compress streams channels n channel).1.length = n := by
  intro n
  induction n with
  | zero => intro streams channels channel; simp [pa_mix_alaw_c]
  | succ k ih =>
    intro streams channels channel
    simp [pa_mix_alaw_c, ih]

theorem pa_mix_s16ne_c_len : ∀ (n : Nat) (streams : List MixStream) (channels channel : Nat),
    2 ∣ n → (pa_mix_s16ne_c streams channels n channel).1.length = n := by
  intro n
  induction n using Nat.strong_induction_on with
  | _ n ih =>
    intro streams channels channel hdvd
    match n, hdvd with
    | 0, _ => simp [pa_mix_s16ne_c]
    | 1, hdvd => exact absurd hdvd (by decide)
    | k+2, hdvd =>
      have h2 : 2 ∣ k := by omega
      simp [pa_mix_s16ne_c, ih k (by omega) _ _ _ h2]
      omega

theorem pa_mix_s16re_c_len : ∀ (n : Nat) (streams : List MixStream) (channels channel : Nat),
    2 ∣ n → (pa_mix_s16re_c streams channels n channel).1.length = n := by
  intro n
  induction n using Nat.strong_induction_on with
  | _ n ih =>
    intro streams channels channel hdvd
    match n, hdvd with
    | 0, _ => simp [pa_mix_s16re_c]
    | 1, hdvd => exact absurd hdvd (by decide)
    | k+2, hdvd =>
      have h2 : 2 ∣ k := by omega
      simp [pa_mix_s16re_c, ih k (by omega) _ _ _ h2]
      omega

theorem pa_mix_s24ne_c_len : ∀ (n : Nat) (streams : List MixStream) (channels channel : Nat),
    3 ∣ n → (pa_mix_s24ne_c streams channels n channel).1.length = n := by
  intro n
  induction n using Nat.strong_induction_on with
  | _ n ih =>
    intro streams channels channel hdvd
    match n, hdvd with
    | 0, _ => simp [pa_mix_s24ne_c]
    | 1, hdvd => exact absurd hdvd (by decide)
    | 2, hdvd => exact absurd hdvd (by decide)
    | k+3, hdvd =>
      have h2 : 3 ∣ k := by omega
      simp [pa_mix_s24ne_c, ih k (by omega) _ _ _ h2]
      omega

theorem pa_mix_s24re_c_len : ∀ (n : Nat) (streams : List MixStream) (channels channel : Nat),
    3 ∣ n → (pa_mix_s24re_c streams channels n channel).1.length = n := by
  intro n
  induction n using Nat.strong_induction_on with
  | _ n ih =>
    intro streams channels channel hdvd
    match n, hdvd with
    | 0, _ => simp [pa_mix_s24re_c]
    | 1, hdvd => exact absurd hdvd (by decide)
    | 2, hdvd => exact absurd hdvd (by decide)
    | k+3, hdvd =>
      have h2 : 3 ∣ k := by omega
      simp [pa_mix_s24re_c, ih k (by omega) _ _ _ h2]
      omega

theorem pa_mix_s32ne_c_len : ∀ (n : Nat) (streams : List MixStream) (channels channel : Nat),
    4 ∣ n → (pa_mix_s32ne_c streams channels n channel).1.length = n := by
  intro n
  induction n using Nat.strong_induction_on with
  | _ n ih =>
    intro streams channels channel hdvd
    match n, hdvd with
    | 0, _ => simp [pa_mix_s32ne_c]
    | 1, hdvd => exact absurd hdvd (by decide)
    | 2, hdvd => exact absurd hdvd (by decide)
    | 3, hdvd => exact absurd hdvd (by decide)
    | k+4, hdvd =>
      have h2 : 4 ∣ k := by omega
      simp [pa_mix_s32ne_c, ih k (by omega) _ _ _ h2]
      omega

theorem pa_mix_s32re_c_len : ∀ (n : Nat) (streams : List MixStream) (channels channel : Nat),
    4 ∣ n → (pa_mix_s32re_c streams channels n channel).1.length = n := by
  intro n
  induction n using Nat.strong_induction_on with
  | _ n ih =>
    intro streams channels channel hdvd
    match n, hdvd with
    | 0, _ => simp [pa_mix_s32re_c]
    | 1, hdvd => exact absurd hdvd (by decide)
    | 2, hdvd => exact absurd hdvd (by decide)
    | 3, hdvd => exact absurd hdvd (by decide)
    | k+4, hdvd =>
      have h2 : 4 ∣ k := by omega
      simp [pa_mix_s32re_c, ih k (by omega) _ _ _ h2]
      omega

theorem pa_mix_s24_32ne_c_len : ∀ (n : Nat) (streams : List MixStream) (channels channel : Nat),
    4 ∣ n → (pa_mix_s24_32ne_c streams channels n channel).1.length = n := by
  intro n
  induction n using Nat.strong_induction_on with
  | _ n ih =>
    intro streams channels channel hdvd
    match n, hdvd with
    | 0, _ => simp [pa_mix_s24_32ne_c]
    | 1, hdvd => exact absurd hdvd (by decide)
    | 2, hdvd => exact absurd hdvd (by decide)
    | 3, hdvd => exact absurd hdvd (by decide)
    | k+4, hdvd =>
      have h2 : 4 ∣ k := by omega
      simp [pa_mix_s24_32ne_c, ih k (by omega) _ _ _ h2]
      omega

theorem pa_mix_s24_32re_c_len : ∀ (n : Nat) (streams : List MixStream) (channels channel : Nat),
    4 ∣ n → (pa_mix_s24_32re_c streams channels n channel).1.length = n := by
  intro n
  induction n using Nat.strong_induction_on with
  | _ n ih =>
    intro streams channels channel hdvd
    match n, hdvd with
    | 0, _ => simp [pa_mix_s24_32re_c]
    | 1, hdvd => exact absurd hdvd (by decide)
    | 2, hdvd => exact absurd hdvd (by decide)
    | 3, hdvd => exact absurd hdvd (by decide)
    | k+4, hdvd =>
      have h2 : 4 ∣ k := by omega
      simp [pa_mix_s24_32re_c, ih k (by omega) _ _ _ h2]
      omega

theorem pa_mix_float32ne_c_len : ∀ (n : Nat) (streams : List MixStream) (channels channel : Nat),
    4 ∣ n → (pa_mix_float32ne_c streams channels n channel).1.length = n := by
  intro n
  induction n using Nat.strong_induction_on with
  | _ n ih =>
    intro streams channels channel hdvd
    match n, hdvd with
    | 0, _ => simp [pa_mix_float32ne_c]
    | 1, hdvd => exact absurd hdvd (by decide)
    | 2, hdvd => exact absurd hdvd (by decide)
    | 3, hdvd => exact absurd hdvd (by decide)
    | k+4, hdvd =>
      have h2 : 4 ∣ k := by omega
      simp [pa_mix_float32ne_c, ih k (by omega) _ _ _ h2]
      omega

theorem pa_mix_float32re_c_len : ∀ (n : Nat) (streams : List MixStream) (channels channel : Nat),
    4 ∣ n → (pa_mix_float32re_c streams channels n channel).1.length = n := by
  intro n
  induction n using Nat.strong_induction_on with
  | _ n ih =>
    intro streams channels channel hdvd
    match n, hdvd with
    | 0, _ => simp [pa_mix_float32re_c]
    | 1, hdvd => exact absurd hdvd (by decide)
    | 2, hdvd => exact absurd hdvd (by decide)
    | 3, hdvd => exact absurd hdvd (by decide)
    | k+4, hdvd =>
      have h2 : 4 ∣ k := by omega
      simp [pa_mix_float32re_c, ih k (by omega) _ _ _ h2]
      omega

/-- Any kernel bound in `do_mix_table`, asked for a stride-aligned byte
count, writes exactly that many destination bytes. -/
theorem do_mix_table_len (ulawExp : Nat → Int) (ulawComp : Int → Nat)
    (alawExp : Nat → Int) (alawComp : Int → Nat) (fmt : SampleFormat)
    (streams : List MixStream) (channels n channel : Nat) (h : sampleSize fmt ∣ n) :
    ((do_mix_table ulawExp ulawComp alawExp alawComp fmt) streams channels n channel).1.length
      = n := by
  cases fmt with
  | u8 => exact pa_mix_u8_c_len n streams channels channel
  | alaw => exact pa_mix_alaw_c_len alawExp alawComp n streams channels channel
  | ulaw => exact pa_mix_ulaw_c_len ulawExp ulawComp n streams channels channel
  | s16ne => exact pa_mix_s16ne_c_len n streams channels channel h
  | s16re => exact pa_mix_s16re_c_len n streams channels channel h
  | float32ne => exact pa_mix_float32ne_c_len n streams channels channel h
  | float32re => exact pa_mix_float32re_c_len n streams channels channel h
  | s32ne => exact pa_mix_s32ne_c_len n streams channels channel h
  | s32re => exact pa_mix_s32re_c_len n streams channels channel h
  | s24ne => exact pa_mix_s24ne_c_len n streams channels channel h
  | s24re => exact pa_mix_s24re_c_len n streams channels channel h
  | s24_32ne => exact pa_mix_s24_32ne_c_len n streams channels channel h
  | s24_32re => exact pa_mix_s24_32re_c_len n streams channels channel h

theorem mixFold_le (streams : List MixInfo) : ∀ length : Nat,
    streams.foldl (fun l m => if l > m.chunk.length then m.chunk.length else l) length
      ≤ length := by
  induction streams with
  | nil => intro length; exact le_rfl
  | cons m t ih =>
    intro length
    have h := ih (if length > m.chunk.length then m.chunk.length else length)
    simp only [List.foldl_cons]
    refine h.trans ?_
    split <;> omega

theorem mixFold_le_chunk (streams : List MixInfo) : ∀ length : Nat, ∀ m ∈ streams,
    streams.foldl (fun l m => if l > m.chunk.length then m.chunk.length else l) length
      ≤ m.chunk.length := by
  induction streams with
  | nil => intro length m hm; exact absurd hm (List.not_mem_nil m)
  | cons a t ih =>
    intro length m hm
    simp only [List.foldl_cons]
    rcases List.mem_cons.mp hm with rfl | hm'
    · refine (mixFold_le t _).trans ?_
      split <;> omega
    · exact ih _ m hm'

theorem mixFold_mem (streams : List MixInfo) : ∀ length : Nat,
    streams.foldl (fun l m => if l > m.chunk.length then m.chunk.length else l) length
        = length ∨
      ∃ m ∈ streams,
        streams.foldl (fun l m => if l > m.chunk.length then m.chunk.length else l) length
          = m.chunk.length := by
  induction streams with
  | nil => intro length; exact Or.inl rfl
  | cons a t ih =>
    intro length
    simp only [List.foldl_cons]
    by_cases hc : length > a.chunk.length
    · rw [if_pos hc]
      rcases ih a.chunk.length with h | ⟨m, hm, h⟩
      · exact Or.inr ⟨a, List.mem_cons_self a t, h⟩
      · exact Or.inr ⟨m, List.mem_cons_of_mem a hm, h⟩
    · rw [if_neg hc]
      rcases ih length with h | ⟨m, hm, h⟩
      · exact Or.inl h
      · exact Or.inr ⟨m, List.mem_cons_of_mem a hm, h⟩

theorem mixFold_dvd (s : Nat) (streams : List MixInfo) : ∀ length : Nat, s ∣ length →
    (∀ m ∈ streams, s ∣ m.chunk.length) →
    s ∣ streams.foldl (fun l m => if l > m.chunk.length then m.chunk.length else l) length := by
  induction streams with
  | nil => intro length hl _; exact hl
  | cons a t ih =>
    intro length hl hc
    simp only [List.foldl_cons]
    refine ih _ ?_ (fun m hm => hc m (List.mem_cons_of_mem a hm))
    split
    · exact hc a (List.mem_cons_self a t)
    · exact hl

/-- C1: on the mix path (streams present, mute unset, output volume not
all-muted, frame-aligned lengths), `pa_mix` returns the minimum of the
requested length and every stream's chunk length, and writes only the
destination bytes below that returned length. -/
theorem pa_mix_actual_length (ulawExp : Nat → Int) (ulawComp : Int → Nat)
    (alawExp : Nat → Int) (alawComp : Int → Nat) (fmt : SampleFormat)
    (streams : List MixInfo) (gains : List (List Nat)) (dest : List Nat)
    (length channels : Nat) (volume : Option (List Nat)) (mute : Bool)
    (hs : streams ≠ []) (hm : mute = false)
    (hv : pa_cvolume_is_muted (volume.getD (pa_cvolume_reset channels)) = false)
    (hl : sampleSize fmt ∣ length)
    (hc : ∀ m ∈ streams, sampleSize fmt ∣ m.chunk.length) :
    ((pa_mix ulawExp ulawComp alawExp alawComp fmt streams gains dest length channels
        volume mute).ret ≤ length ∧
      (∀ m ∈ streams,
        (pa_mix ulawExp ulawComp alawExp alawComp fmt streams gains dest length channels
          volume mute).ret ≤ m.chunk.length) ∧
      ((pa_mix ulawExp ulawComp alawExp alawComp fmt streams gains dest length channels
          volume mute).ret = length ∨
        ∃ m ∈ streams,
          (pa_mix ulawExp ulawComp alawExp alawComp fmt streams gains dest length channels
            volume mute).ret = m.chunk.length)) ∧
    (pa_mix ulawExp ulawComp alawExp alawComp fmt streams gains dest length channels
        volume mute).dest.drop
        (pa_mix ulawExp ulawComp alawExp alawComp fmt streams gains dest length channels
          volume mute).ret
      = dest.drop
        (pa_mix ulawExp ulawComp alawExp alawComp fmt streams gains dest length channels
          volume mute).ret := by
  have hcond : (mute || pa_cvolume_is_muted (volume.getD (pa_cvolume_reset channels)) ||
      decide (streams.length = 0)) = false := by
    rw [hm, hv]
    simp [List.length_eq_zero, hs]
  have hres : pa_mix ulawExp ulawComp alawExp alawComp fmt streams gains dest length channels
      volume mute =
      { dest :=
          ((do_mix_table ulawExp ulawComp alawExp alawComp fmt)
            (List.zipWith (fun (m : MixInfo) g => MixStream.mk m.chunk g) streams gains)
            channels
            (streams.foldl (fun l m => if l > m.chunk.length then m.chunk.length else l) length)
            0).1 ++
          dest.drop
            ((do_mix_table ulawExp ulawComp alawExp alawComp fmt)
              (List.zipWith (fun (m : MixInfo) g => MixStream.mk m.chunk g) streams gains)
              channels
              (streams.foldl (fun l m => if l > m.chunk.length then m.chunk.length else l)
                length)
              0).1.length,
        ret := streams.foldl (fun l m => if l > m.chunk.length then m.chunk.length else l)
          length,
        acquired := streams.length, released := streams.length } := by
    simp only [pa_mix]
    rw [hcond]
    rfl
  have hfolddvd : sampleSize fmt ∣
      streams.foldl (fun l m => if l > m.chunk.length then m.chunk.length else l) length :=
    mixFold_dvd _ streams length hl hc
  have hlen := do_mix_table_len ulawExp ulawComp alawExp alawComp fmt
    (List.zipWith (fun (m : MixInfo) g => MixStream.mk m.chunk g) streams gains) channels
    (streams.foldl (fun l m => if l > m.chunk.length then m.chunk.length else l) length) 0
    hfolddvd
  rw [hres]
  refine ⟨⟨mixFold_le streams length, fun m hm => mixFold_le_chunk streams length m hm,
    mixFold_mem streams length⟩, ?_⟩
  dsimp only
  have hdrop : ∀ (out : List Nat) (k : Nat), out.length = k →
      (out ++ dest.drop out.length).drop k = dest.drop k := by
    intro out k hk
    rw [← hk]
    exact List.drop_left _ _
  exact hdrop _ _ hlen

/-- Witness for `pa_mix_actual_length`: stream buffers of 40, 24 and 64
bytes (frame-aligned, 2-channel s16), requested length 64: the call
returns 24 and destination bytes 24..63 keep their prior contents. -/
theorem pa_mix_actual_length_witness :
    (pa_mix (fun _ => 0) (fun _ => 0) (fun _ => 0) (fun _ => 0) .s16ne
      [⟨List.replicate 40 0, [PA_VOLUME_NORM, PA_VOLUME_NORM]⟩,
       ⟨List.replicate 24 0, [PA_VOLUME_NORM, PA_VOLUME_NORM]⟩,
       ⟨List.replicate 64 0, [PA_VOLUME_NORM, PA_VOLUME_NORM]⟩]
      [[0x10000, 0x10000], [0x10000, 0x10000], [0x10000, 0x10000]]
      (List.replicate 64 7) 64 2 (some [PA_VOLUME_NORM, PA_VOLUME_NORM]) false).ret = 24 ∧
    (pa_mix (fun _ => 0) (fun _ => 0) (fun _ => 0) (fun _ => 0) .s16ne
      [⟨List.replicate 40 0, [PA_VOLUME_NORM, PA_VOLUME_NORM]⟩,
       ⟨List.replicate 24 0, [PA_VOLUME_NORM, PA_VOLUME_NORM]⟩,
       ⟨List.replicate 64 0, [PA_VOLUME_NORM, PA_VOLUME_NORM]⟩]
      [[0x10000, 0x10000], [0x10000, 0x10000], [0x10000, 0x10000]]
      (List.replicate 64 7) 64 2 (some [PA_VOLUME_NORM, PA_VOLUME_NORM]) false).dest.drop 24
      = (List.replicate 64 7).drop 24 := by
  have h := pa_mix_actual_length (fun _ => 0) (fun _ => 0) (fun _ => 0) (fun _ => 0) .s16ne
    [⟨List.replicate 40 0, [PA_VOLUME_NORM, PA_VOLUME_NORM]⟩,
     ⟨List.replicate 24 0, [PA_VOLUME_NORM, PA_VOLUME_NORM]⟩,
     ⟨List.replicate 64 0, [PA_VOLUME_NORM, PA_VOLUME_NORM]⟩]
    [[0x10000, 0x10000], [0x10000, 0x10000], [0x10000, 0x10000]]
    (List.replicate 64 7) 64 2 (some [PA_VOLUME_NORM, PA_VOLUME_NORM]) false
    (by decide) rfl (by decide) (by decide) (by decide)
  have hret : (pa_mix (fun _ => 0) (fun _ => 0) (fun _ => 0) (fun _ => 0) .s16ne
      [⟨List.replicate 40 0, [PA_VOLUME_NORM, PA_VOLUME_NORM]⟩,
       ⟨List.replicate 24 0, [PA_VOLUME_NORM, PA_VOLUME_NORM]⟩,
       ⟨List.replicate 64 0, [PA_VOLUME_NORM, PA_VOLUME_NORM]⟩]
      [[0x10000, 0x10000], [0x10000, 0x10000], [0x10000, 0x10000]]
      (List.replicate 64 7) 64 2 (some [PA_VOLUME_NORM, PA_VOLUME_NORM]) false).ret = 24 := by
    decide
  have h4 := h.2
  rw [hret] at h4
  exact ⟨hret, h4⟩

/-!
## C5, C6, C10: accumulator arithmetic of the kernels

A generic lemma relating the kernels' wrapped accumulation to the exact
sum (valid while every prefix of the exact sum stays within the
accumulator's range), projections of the per-sample folds, and exactness
of the per-stream gain arithmetic.
-/

theorem foldl_prod_fst {α β γ : Type} (f : α → γ → α) (g : β → γ → β) :
    ∀ (l : List γ) (a : α) (b : β),
    (l.foldl (fun p m => (f p.1 m, g p.2 m)) (a, b)).1 = l.foldl f a := by
  intro l
  induction l with
  | nil => intro a b; rfl
  | cons m t ih => intro a b; simp only [List.foldl_cons]; exact ih _ _

/-- The wrapped gated accumulation (`sum += v` on a fixed-width
accumulator, skipping zero-gain streams) equals the exact sum as long as
every prefix of the exact sum lies in the accumulator range. -/
theorem gatedFoldWrap_eq (w : Int → Int) (lo hi : Int)
    (hw : ∀ x, lo ≤ x → x ≤ hi → w x = x)
    (gv : MixStream → Int) (c : MixStream → Int) :
    ∀ (l : List MixStream) (a : Int),
      (∀ k, k ≤ l.length →
        lo ≤ a + ((l.take k).map (fun m => if gv m > 0 then c m else 0)).sum ∧
        a + ((l.take k).map (fun m => if gv m > 0 then c m else 0)).sum ≤ hi) →
      l.foldl (fun x m => if gv m > 0 then w (x + c m) else x) a
        = a + (l.map (fun m => if gv m > 0 then c m else 0)).sum := by
  intro l
  induction l with
  | nil => intro a h; simp
  | cons m t ih =>
    intro a h
    simp only [List.foldl_cons]
    by_cases hg : gv m > 0
    · have h1 := h 1 (by simp)
      simp only [List.take_succ_cons, List.take_zero, List.map_cons, List.map_nil,
        List.sum_cons, List.sum_nil, if_pos hg, add_zero] at h1
      rw [if_pos hg, hw _ h1.1 h1.2]
      have ht := ih (a + c m) (fun k hk => ?_)
      · rw [ht]
        simp only [List.map_cons, List.sum_cons, if_pos hg]
        ring
      · have h2 := h (k + 1) (by simpa using hk)
        simp only [List.take_succ_cons, List.map_cons, List.sum_cons, if_pos hg] at h2
        constructor <;> [linarith [h2.1]; linarith [h2.2]]
    · rw [if_neg hg]
      have ht := ih a (fun k hk => ?_)
      · rw [ht]
        simp only [List.map_cons, List.sum_cons, if_neg hg]
        ring
      · have h2 := h (k + 1) (by simpa using hk)
        simp only [List.take_succ_cons, List.map_cons, List.sum_cons, if_neg hg,
          zero_add] at h2
        exact h2

theorem loadS16ne_mem (l : List Nat) : -0x8000 ≤ loadS16ne l ∧ loadS16ne l ≤ 0x7FFF :=
  i16_mem _

theorem loadS16re_mem (l : List Nat) : -0x8000 ≤ loadS16re l ∧ loadS16re l ≤ 0x7FFF :=
  i16_mem _

/-- The inner hi/lo arithmetic of the 16-bit (and companded) kernels is
exact for any 16-bit sample and positive 32-bit gain: no intermediate
`int32_t` operation wraps. -/
theorem hiLoWrap_eq (v cv : Int) (hv1 : -0x8000 ≤ v) (hv2 : v ≤ 0x7FFF) (hcv1 : 0 < cv)
    (hcv2 : cv ≤ 0x7FFFFFFF) :
    i32 (i32 (v * (cv % 65536)) / 65536 + i32 (v * (cv / 65536))) = hiLoGain v cv := by
  have hlo1 : 0 ≤ cv % 65536 := by omega
  have hlo2 : cv % 65536 ≤ 65535 := by omega
  have hhi1 : 0 ≤ cv / 65536 := by omega
  have hhi2 : cv / 65536 ≤ 0x7FFF := by omega
  have hp1 : v * (cv % 65536) ≤ 0x7FFF * 65535 := by nlinarith
  have hp2 : -0x8000 * 65535 ≤ v * (cv % 65536) := by nlinarith
  have hq1 : v * (cv / 65536) ≤ 0x7FFF * 0x7FFF := by nlinarith
  have hq2 : -0x8000 * 0x7FFF ≤ v * (cv / 65536) := by nlinarith
  rw [i32_eq_self (v * (cv % 65536)) (by omega) (by omega),
      i32_eq_self (v * (cv / 65536)) (by omega) (by omega)]
  have hd1 : v * (cv % 65536) / 65536 ≤ 0x7FFF * 65535 / 65536 :=
    Int.ediv_le_ediv (by norm_num) hp1
  have hd2 : -0x8000 * 65535 / 65536 ≤ v * (cv % 65536) / 65536 :=
    Int.ediv_le_ediv (by norm_num) hp2
  rw [i32_eq_self _ (by omega) (by omega)]
  rfl

/-- The wide multiply of the 64-bit-accumulator kernels is exact for any
32-bit sample and positive 32-bit gain. -/
theorem wideWrap_eq (v cv : Int) (hv1 : -0x80000000 ≤ v) (hv2 : v ≤ 0x7FFFFFFF)
    (hcv1 : 0 < cv) (hcv2 : cv ≤ 0x7FFFFFFF) :
    i64 (v * cv) / 65536 = wideGain v cv := by
  have hp1 : v * cv ≤ 0x7FFFFFFF * 0x7FFFFFFF := by nlinarith
  have hp2 : -0x80000000 * 0x7FFFFFFF ≤ v * cv := by nlinarith
  rw [i64_eq_self (v * cv) (by omega) (by omega)]
  rfl

theorem u8Wrap_eq (v cv : Int) (h1 : -0x80000000 ≤ v * cv) (h2 : v * cv ≤ 0x7FFFFFFF) :
    i32 (i32 (v * cv) / 65536) = wideGain v cv := by
  rw [i32_eq_self _ h1 h2]
  have hd1 : v * cv / 65536 ≤ 0x7FFFFFFF / 65536 := Int.ediv_le_ediv (by norm_num) h2
  have hd2 : -0x80000000 / 65536 ≤ v * cv / 65536 := Int.ediv_le_ediv (by norm_num) h1
  rw [i32_eq_self _ (by omega) (by omega)]
  rfl

theorem loadS32ne_mem (l : List Nat) :
    -0x80000000 ≤ loadS32ne l ∧ loadS32ne l ≤ 0x7FFFFFFF := i32_mem _

theorem loadS32re_mem (l : List Nat) :
    -0x80000000 ≤ loadS32re l ∧ loadS32re l ≤ 0x7FFFFFFF := i32_mem _


theorem s16neSample_fst (channel : Nat) :
    ∀ (l : List MixStream) (a : Int) (b : List MixStream),
    (l.foldl (s16neStep channel) (a, b)).1 =
      l.foldl (fun x m =>
        if unionI (m.linear.getD channel 0) > 0 then
          i32 (x + i32 (i32 (loadS16ne m.ptr * (unionI (m.linear.getD channel 0) % 65536)) / 65536
            + i32 (loadS16ne m.ptr * (unionI (m.linear.getD channel 0) / 65536))))
        else x) a := by
  intro l
  induction l with
  | nil => intro a b; rfl
  | cons m t ih =>
    intro a b
    simp only [List.foldl_cons, s16neStep]
    exact ih _ _

/-- The wrapped `s16ne` per-sample accumulation equals the exact sum of
the streams' contributions while every prefix of that sum fits the
32-bit accumulator. -/
theorem s16neSample_eq_ideal (streams : List MixStream) (channel : Nat)
    (h : ∀ k, k ≤ streams.length →
      -0x80000000 ≤ idealSum (s16neContrib channel) (streams.take k) ∧
      idealSum (s16neContrib channel) (streams.take k) ≤ 0x7FFFFFFF) :
    (s16neSample streams channel).1 = idealSum (s16neContrib channel) streams := by
  unfold s16neSample
  rw [s16neSample_fst channel streams 0 []]
  have hstep : streams.foldl (fun x m =>
      if unionI (m.linear.getD channel 0) > 0 then
        i32 (x + i32 (i32 (loadS16ne m.ptr * (unionI (m.linear.getD channel 0) % 65536)) / 65536
          + i32 (loadS16ne m.ptr * (unionI (m.linear.getD channel 0) / 65536))))
      else x) 0 =
      streams.foldl (fun x m =>
        if unionI (m.linear.getD channel 0) > 0 then
          i32 (x + hiLoGain (loadS16ne m.ptr) (unionI (m.linear.getD channel 0)))
        else x) 0 := by
    refine List.foldl_ext _ _ 0 (fun a m hm => ?_)
    by_cases hg : unionI (m.linear.getD channel 0) > 0
    · rw [if_pos hg, if_pos hg,
        hiLoWrap_eq (loadS16ne m.ptr) (unionI (m.linear.getD channel 0))
          (loadS16ne_mem m.ptr).1 (loadS16ne_mem m.ptr).2 hg (unionI_mem _).2]
    · rw [if_neg hg, if_neg hg]
  rw [hstep]
  have hfold := gatedFoldWrap_eq i32 (-0x80000000) 0x7FFFFFFF
    (fun x h1 h2 => i32_eq_self x h1 h2)
    (fun m => unionI (m.linear.getD channel 0))
    (fun m => hiLoGain (loadS16ne m.ptr) (unionI (m.linear.getD channel 0)))
    streams 0 (fun k hk => by
      simp only [idealSum, s16neContrib, zero_add]
      exact h k hk)
  simp only [idealSum, s16neContrib, zero_add] at hfold
  exact hfold


theorem s16reSample_fst (channel : Nat) :
    ∀ (l : List MixStream) (a : Int) (b : List MixStream),
    (l.foldl (s16reStep channel) (a, b)).1 =
      l.foldl (fun x m =>
        if unionI (m.linear.getD channel 0) > 0 then
          i32 (x + i32 (i32 (loadS16re m.ptr * (unionI (m.linear.getD channel 0) % 65536)) / 65536
            + i32 (loadS16re m.ptr * (unionI (m.linear.getD channel 0) / 65536))))
        else x) a := by
  intro l
  induction l with
  | nil => intro a b; rfl
  | cons m t ih =>
    intro a b
    simp only [List.foldl_cons, s16reStep]
    exact ih _ _

/-- The wrapped `s16re` per-sample accumulation equals the exact sum of
the streams' contributions while every prefix of that sum fits the
32-bit accumulator. -/
theorem s16reSample_eq_ideal (streams : List MixStream) (channel : Nat)
    (h : ∀ k, k ≤ streams.length →
      -0x80000000 ≤ idealSum (s16reContrib channel) (streams.take k) ∧
      idealSum (s16reContrib channel) (streams.take k) ≤ 0x7FFFFFFF) :
    (s16reSample streams channel).1 = idealSum (s16reContrib channel) streams := by
  unfold s16reSample
  rw [s16reSample_fst channel streams 0 []]
  have hstep : streams.foldl (fun x m =>
      if unionI (m.linear.getD channel 0) > 0 then
        i32 (x + i32 (i32 (loadS16re m.ptr * (unionI (m.linear.getD channel 0) % 65536)) / 65536
          + i32 (loadS16re m.ptr * (unionI (m.linear.getD channel 0) / 65536))))
      else x) 0 =
      streams.foldl (fun x m =>
        if unionI (m.linear.getD channel 0) > 0 then
          i32 (x + hiLoGain (loadS16re m.ptr) (unionI (m.linear.getD channel 0)))
        else x) 0 := by
    refine List.foldl_ext _ _ 0 (fun a m hm => ?_)
    by_cases hg : unionI (m.linear.getD channel 0) > 0
    · rw [if_pos hg, if_pos hg,
        hiLoWrap_eq (loadS16re m.ptr) (unionI (m.linear.getD channel 0))
          (loadS16re_mem m.ptr).1 (loadS16re_mem m.ptr).2 hg (unionI_mem _).2]
    · rw [if_neg hg, if_neg hg]
  rw [hstep]
  have hfold := gatedFoldWrap_eq i32 (-0x80000000) 0x7FFFFFFF
    (fun x h1 h2 => i32_eq_self x h1 h2)
    (fun m => unionI (m.linear.getD channel 0))
    (fun m => hiLoGain (loadS16re m.ptr) (unionI (m.linear.getD channel 0)))
    streams 0 (fun k hk => by
      simp only [idealSum, s16reContrib, zero_add]
      exact h k hk)
  simp only [idealSum, s16reContrib, zero_add] at hfold
  exact hfold


theorem s32neSample_fst (channel : Nat) :
    ∀ (l : List MixStream) (a : Int) (b : List MixStream),
    (l.foldl (s32neStep channel) (a, b)).1 =
      l.foldl (fun x m =>
        if unionI (m.linear.getD channel 0) > 0 then
          i64 (x + i64 ((loadS32ne m.ptr) * unionI (m.linear.getD channel 0)) / 65536)
        else x) a := by
  intro l
  induction l with
  | nil => intro a b; rfl
  | cons m t ih =>
    intro a b
    simp only [List.foldl_cons, s32neStep]
    exact ih _ _

/-- The wrapped `s32ne` per-sample accumulation equals the exact sum of
the streams' contributions while every prefix of that sum fits the
64-bit accumulator. -/
theorem s32neSample_eq_ideal (streams : List MixStream) (channel : Nat)
    (h : ∀ k, k ≤ streams.length →
      -0x8000000000000000 ≤ idealSum (s32neContrib channel) (streams.take k) ∧
      idealSum (s32neContrib channel) (streams.take k) ≤ 0x7FFFFFFFFFFFFFFF) :
    (s32neSample streams channel).1 = idealSum (s32neContrib channel) streams := by
  unfold s32neSample
  rw [s32neSample_fst channel streams 0 []]
  have hstep : streams.foldl (fun x m =>
      if unionI (m.linear.getD channel 0) > 0 then
        i64 (x + i64 ((loadS32ne m.ptr) * unionI (m.linear.getD channel 0)) / 65536)
      else x) 0 =
      streams.foldl (fun x m =>
        if unionI (m.linear.getD channel 0) > 0 then
          i64 (x + wideGain (loadS32ne m.ptr) (unionI (m.linear.getD channel 0)))
        else x) 0 := by
    refine List.foldl_ext _ _ 0 (fun a m hm => ?_)
    by_cases hg : unionI (m.linear.getD channel 0) > 0
    · rw [if_pos hg, if_pos hg,
        wideWrap_eq (loadS32ne m.ptr) (unionI (m.linear.getD channel 0))
          (loadS32ne_mem m.ptr).1 (loadS32ne_mem m.ptr).2 hg (unionI_mem _).2]
    · rw [if_neg hg, if_neg hg]
  rw [hstep]
  have hfold := gatedFoldWrap_eq i64 (-0x8000000000000000) 0x7FFFFFFFFFFFFFFF
    (fun x h1 h2 => i64_eq_self x h1 h2)
    (fun m => unionI (m.linear.getD channel 0))
    (fun m => wideGain (loadS32ne m.ptr) (unionI (m.linear.getD channel 0)))
    streams 0 (fun k hk => by
      simp only [idealSum, s32neContrib, zero_add]
      exact h k hk)
  simp only [idealSum, s32neContrib, zero_add] at hfold
  exact hfold


theorem s32reSample_fst (channel : Nat) :
    ∀ (l : List MixStream) (a : Int) (b : List MixStream),
    (l.foldl (s32reStep channel) (a, b)).1 =
      l.foldl (fun x m =>
        if unionI (m.linear.getD channel 0) > 0 then
          i64 (x + i64 ((loadS32re m.ptr) * unionI (m.linear.getD channel 0)) / 65536)
        else x) a := by
  intro l
  induction l with
  | nil => intro a b; rfl
  | cons m t ih =>
    intro a b
    simp only [List.foldl_cons, s32reStep]
    exact ih _ _

/-- The wrapped `s32re` per-sample accumulation equals the exact sum of
the streams' contributions while every prefix of that sum fits the
64-bit accumulator. -/
theorem s32reSample_eq_ideal (streams : List MixStream) (channel : Nat)
    (h : ∀ k, k ≤ streams.length →
      -0x8000000000000000 ≤ idealSum (s32reContrib channel) (streams.take k) ∧
      idealSum (s32reContrib channel) (streams.take k) ≤ 0x7FFFFFFFFFFFFFFF) :
    (s32reSample streams channel).1 = idealSum (s32reContrib channel) streams := by
  unfold s32reSample
  rw [s32reSample_fst channel streams 0 []]
  have hstep : streams.foldl (fun x m =>
      if unionI (m.linear.getD channel 0) > 0 then
        i64 (x + i64 ((loadS32re m.ptr) * unionI (m.linear.getD channel 0)) / 65536)
      else x) 0 =
      streams.foldl (fun x m =>
        if unionI (m.linear.getD channel 0) > 0 then
          i64 (x + wideGain (loadS32re m.ptr) (unionI (m.linear.getD channel 0)))
        else x) 0 := by
    refine List.foldl_ext _ _ 0 (fun a m hm => ?_)
    by_cases hg : unionI (m.linear.getD channel 0) > 0
    · rw [if_pos hg, if_pos hg,
        wideWrap_eq (loadS32re m.ptr) (unionI (m.linear.getD channel 0))
          (loadS32re_mem m.ptr).1 (loadS32re_mem m.ptr).2 hg (unionI_mem _).2]
    · rw [if_neg hg, if_neg hg]
  rw [hstep]
  have hfold := gatedFoldWrap_eq i64 (-0x8000000000000000) 0x7FFFFFFFFFFFFFFF
    (fun x h1 h2 => i64_eq_self x h1 h2)
    (fun m => unionI (m.linear.getD channel 0))
    (fun m => wideGain (loadS32re m.ptr) (unionI (m.linear.getD channel 0)))
    streams 0 (fun k hk => by
      simp only [idealSum, s32reContrib, zero_add]
      exact h k hk)
  simp only [idealSum, s32reContrib, zero_add] at hfold
  exact hfold


theorem s24neSample_fst (channel : Nat) :
    ∀ (l : List MixStream) (a : Int) (b : List MixStream),
    (l.foldl (s24neStep channel) (a, b)).1 =
      l.foldl (fun x m =>
        if unionI (m.linear.getD channel 0) > 0 then
          i64 (x + i64 ((i32 (loadU24le m.ptr * 256)) * unionI (m.linear.getD channel 0)) / 65536)
        else x) a := by
  intro l
  induction l with
  | nil => intro a b; rfl
  | cons m t ih =>
    intro a b
    simp only [List.foldl_cons, s24neStep]
    exact ih _ _

/-- The wrapped `s24ne` per-sample accumulation equals the exact sum of
the streams' contributions while every prefix of that sum fits the
64-bit accumulator. -/
theorem s24neSample_eq_ideal (streams : List MixStream) (channel : Nat)
    (h : ∀ k, k ≤ streams.length →
      -0x8000000000000000 ≤ idealSum (s24neContrib channel) (streams.take k) ∧
      idealSum (s24neContrib channel) (streams.take k) ≤ 0x7FFFFFFFFFFFFFFF) :
    (s24neSample streams channel).1 = idealSum (s24neContrib channel) streams := by
  unfold s24neSample
  rw [s24neSample_fst channel streams 0 []]
  have hstep : streams.foldl (fun x m =>
      if unionI (m.linear.getD channel 0) > 0 then
        i64 (x + i64 ((i32 (loadU24le m.ptr * 256)) * unionI (m.linear.getD channel 0)) / 65536)
      else x) 0 =
      streams.foldl (fun x m =>
        if unionI (m.linear.getD channel 0) > 0 then
          i64 (x + wideGain (i32 (loadU24le m.ptr * 256)) (unionI (m.linear.getD channel 0)))
        else x) 0 := by
    refine List.foldl_ext _ _ 0 (fun a m hm => ?_)
    by_cases hg : unionI (m.linear.getD channel 0) > 0
    · rw [if_pos hg, if_pos hg,
        wideWrap_eq (i32 (loadU24le m.ptr * 256)) (unionI (m.linear.getD channel 0))
          (i32_mem (loadU24le m.ptr * 256)).1 (i32_mem (loadU24le m.ptr * 256)).2 hg (unionI_mem _).2]
    · rw [if_neg hg, if_neg hg]
  rw [hstep]
  have hfold := gatedFoldWrap_eq i64 (-0x8000000000000000) 0x7FFFFFFFFFFFFFFF
    (fun x h1 h2 => i64_eq_self x h1 h2)
    (fun m => unionI (m.linear.getD channel 0))
    (fun m => wideGain (i32 (loadU24le m.ptr * 256)) (unionI (m.linear.getD channel 0)))
    streams 0 (fun k hk => by
      simp only [idealSum, s24neContrib, zero_add]
      exact h k hk)
  simp only [idealSum, s24neContrib, zero_add] at hfold
  exact hfold


theorem s24reSample_fst (channel : Nat) :
    ∀ (l : List MixStream) (a : Int) (b : List MixStream),
    (l.foldl (s24reStep channel) (a, b)).1 =
      l.foldl (fun x m =>
        if unionI (m.linear.getD channel 0) > 0 then
          i64 (x + i64 ((i32 (loadU24be m.ptr * 256)) * unionI (m.linear.getD channel 0)) / 65536)
        else x) a := by
  intro l
  induction l with
  | nil => intro a b; rfl
  | cons m t ih =>
    intro a b
    simp only [List.foldl_cons, s24reStep]
    exact ih _ _

/-- The wrapped `s24re` per-sample accumulation equals the exact sum of
the streams' contributions while every prefix of that sum fits the
64-bit accumulator. -/
theorem s24reSample_eq_ideal (streams : List MixStream) (channel : Nat)
    (h : ∀ k, k ≤ streams.length →
      -0x8000000000000000 ≤ idealSum (s24reContrib channel) (streams.take k) ∧
      idealSum (s24reContrib channel) (streams.take k) ≤ 0x7FFFFFFFFFFFFFFF) :
    (s24reSample streams channel).1 = idealSum (s24reContrib channel) streams := by
  unfold s24reSample
  rw [s24reSample_fst channel streams 0 []]
  have hstep : streams.foldl (fun x m =>
      if unionI (m.linear.getD channel 0) > 0 then
        i64 (x + i64 ((i32 (loadU24be m.ptr * 256)) * unionI (m.linear.getD channel 0)) / 65536)
      else x) 0 =
      streams.foldl (fun x m =>
        if unionI (m.linear.getD channel 0) > 0 then
          i64 (x + wideGain (i32 (loadU24be m.ptr * 256)) (unionI (m.linear.getD channel 0)))
        else x) 0 := by
    refine List.foldl_ext _ _ 0 (fun a m hm => ?_)
    by_cases hg : unionI (m.linear.getD channel 0) > 0
    · rw [if_pos hg, if_pos hg,
        wideWrap_eq (i32 (loadU24be m.ptr * 256)) (unionI (m.linear.getD channel 0))
          (i32_mem (loadU24be m.ptr * 256)).1 (i32_mem (loadU24be m.ptr * 256)).2 hg (unionI_mem _).2]
    · rw [if_neg hg, if_neg hg]
  rw [hstep]
  have hfold := gatedFoldWrap_eq i64 (-0x8000000000000000) 0x7FFFFFFFFFFFFFFF
    (fun x h1 h2 => i64_eq_self x h1 h2)
    (fun m => unionI (m.linear.getD channel 0))
    (fun m => wideGain (i32 (loadU24be m.ptr * 256)) (unionI (m.linear.getD channel 0)))
    streams 0 (fun k hk => by
      simp only [idealSum, s24reContrib, zero_add]
      exact h k hk)
  simp only [idealSum, s24reContrib, zero_add] at hfold
  exact hfold


theorem s24_32neSample_fst (channel : Nat) :
    ∀ (l : List MixStream) (a : Int) (b : List MixStream),
    (l.foldl (s24_32neStep channel) (a, b)).1 =
      l.foldl (fun x m =>
        if unionI (m.linear.getD channel 0) > 0 then
          i64 (x + i64 ((i32 (loadU32le m.ptr * 256)) * unionI (m.linear.getD channel 0)) / 65536)
        else x) a := by
  intro l
  induction l with
  | nil => intro a b; rfl
  | cons m t ih =>
    intro a b
    simp only [List.foldl_cons, s24_32neStep]
    exact ih _ _

/-- The wrapped `s24_32ne` per-sample accumulation equals the exact sum of
the streams' contributions while every prefix of that sum fits the
64-bit accumulator. -/
theorem s24_32neSample_eq_ideal (streams : List MixStream) (channel : Nat)
    (h : ∀ k, k ≤ streams.length →
      -0x8000000000000000 ≤ idealSum (s24_32neContrib channel) (streams.take k) ∧
      idealSum (s24_32neContrib channel) (streams.take k) ≤ 0x7FFFFFFFFFFFFFFF) :
    (s24_32neSample streams channel).1 = idealSum (s24_32neContrib channel) streams := by
  unfold s24_32neSample
  rw [s24_32neSample_fst channel streams 0 []]
  have hstep : streams.foldl (fun x m =>
      if unionI (m.linear.getD channel 0) > 0 then
        i64 (x + i64 ((i32 (loadU32le m.ptr * 256)) * unionI (m.linear.getD channel 0)) / 65536)
      else x) 0 =
      streams.foldl (fun x m =>
        if unionI (m.linear.getD channel 0) > 0 then
          i64 (x + wideGain (i32 (loadU32le m.ptr * 256)) (unionI (m.linear.getD channel 0)))
        else x) 0 := by
    refine List.foldl_ext _ _ 0 (fun a m hm => ?_)
    by_cases hg : unionI (m.linear.getD channel 0) > 0
    · rw [if_pos hg, if_pos hg,
        wideWrap_eq (i32 (loadU32le m.ptr * 256)) (unionI (m.linear.getD channel 0))
          (i32_mem (loadU32le m.ptr * 256)).1 (i32_mem (loadU32le m.ptr * 256)).2 hg (unionI_mem _).2]
    · rw [if_neg hg, if_neg hg]
  rw [hstep]
  have hfold := gatedFoldWrap_eq i64 (-0x8000000000000000) 0x7FFFFFFFFFFFFFFF
    (fun x h1 h2 => i64_eq_self x h1 h2)
    (fun m => unionI (m.linear.getD channel 0))
    (fun m => wideGain (i32 (loadU32le m.ptr * 256)) (unionI (m.linear.getD channel 0)))
    streams 0 (fun k hk => by
      simp only [idealSum, s24_32neContrib, zero_add]
      exact h k hk)
  simp only [idealSum, s24_32neContrib, zero_add] at hfold
  exact hfold


theorem s24_32reSample_fst (channel : Nat) :
    ∀ (l : List MixStream) (a : Int) (b : List MixStream),
    (l.foldl (s24_32reStep channel) (a, b)).1 =
      l.foldl (fun x m =>
        if unionI (m.linear.getD channel 0) > 0 then
          i64 (x + i64 ((i32 (loadU32be m.ptr * 256)) * unionI (m.linear.getD channel 0)) / 65536)
        else x) a := by
  intro l
  induction l with
  | nil => intro a b; rfl
  | cons m t ih =>
    intro a b
    simp only [List.foldl_cons, s24_32reStep]
    exact ih _ _

/-- The wrapped `s24_32re` per-sample accumulation equals the exact sum of
the streams' contributions while every prefix of that sum fits the
64-bit accumulator. -/
theorem s24_32reSample_eq_ideal (streams : List MixStream) (channel : Nat)
    (h : ∀ k, k ≤ streams.length →
      -0x8000000000000000 ≤ idealSum (s24_32reContrib channel) (streams.take k) ∧
      idealSum (s24_32reContrib channel) (streams.take k) ≤ 0x7FFFFFFFFFFFFFFF) :
    (s24_32reSample streams channel).1 = idealSum (s24_32reContrib channel) streams := by
  unfold s24_32reSample
  rw [s24_32reSample_fst channel streams 0 []]
  have hstep : streams.foldl (fun x m =>
      if unionI (m.linear.getD channel 0) > 0 then
        i64 (x + i64 ((i32 (loadU32be m.ptr * 256)) * unionI (m.linear.getD channel 0)) / 65536)
      else x) 0 =
      streams.foldl (fun x m =>
        if unionI (m.linear.getD channel 0) > 0 then
          i64 (x + wideGain (i32 (loadU32be m.ptr * 256)) (unionI (m.linear.getD channel 0)))
        else x) 0 := by
    refine List.foldl_ext _ _ 0 (fun a m hm => ?_)
    by_cases hg : unionI (m.linear.getD channel 0) > 0
    · rw [if_pos hg, if_pos hg,
        wideWrap_eq (i32 (loadU32be m.ptr * 256)) (unionI (m.linear.getD channel 0))
          (i32_mem (loadU32be m.ptr * 256)).1 (i32_mem (loadU32be m.ptr * 256)).2 hg (unionI_mem _).2]
    · rw [if_neg hg, if_neg hg]
  rw [hstep]
  have hfold := gatedFoldWrap_eq i64 (-0x8000000000000000) 0x7FFFFFFFFFFFFFFF
    (fun x h1 h2 => i64_eq_self x h1 h2)
    (fun m => unionI (m.linear.getD channel 0))
    (fun m => wideGain (i32 (loadU32be m.ptr * 256)) (unionI (m.linear.getD channel 0)))
    streams 0 (fun k hk => by
      simp only [idealSum, s24_32reContrib, zero_add]
      exact h k hk)
  simp only [idealSum, s24_32reContrib, zero_add] at hfold
  exact hfold

theorem byteAt_lt (l : List Nat) (i : Nat) : byteAt l i < 256 := Nat.mod_lt _ (by norm_num)

theorem u8Sample_fst (channel : Nat) :
    ∀ (l : List MixStream) (a : Int) (b : List MixStream),
    (l.foldl (u8Step channel) (a, b)).1 =
      l.foldl (fun x m =>
        if unionI (m.linear.getD channel 0) > 0 then
          i32 (x + i32 (i32 (((byteAt m.ptr 0 : Int) - 0x80) * unionI (m.linear.getD channel 0))
            / 65536))
        else x) a := by
  intro l
  induction l with
  | nil => intro a b; rfl
  | cons m t ih =>
    intro a b
    simp only [List.foldl_cons, u8Step]
    exact ih _ _

/-- The wrapped `u8` per-sample accumulation equals the exact sum of the
streams' contributions, provided each stream's 32-bit sample-times-gain
product and every prefix of the sum fit `int32_t`. -/
theorem u8Sample_eq_ideal (streams : List MixStream) (channel : Nat)
    (hprod : ∀ m ∈ streams, unionI (m.linear.getD channel 0) > 0 →
      -0x80000000 ≤ ((byteAt m.ptr 0 : Int) - 0x80) * unionI (m.linear.getD channel 0) ∧
      ((byteAt m.ptr 0 : Int) - 0x80) * unionI (m.linear.getD channel 0) ≤ 0x7FFFFFFF)
    (h : ∀ k, k ≤ streams.length →
      -0x80000000 ≤ idealSum (u8Contrib channel) (streams.take k) ∧
      idealSum (u8Contrib channel) (streams.take k) ≤ 0x7FFFFFFF) :
    (u8Sample streams channel).1 = idealSum (u8Contrib channel) streams := by
  unfold u8Sample
  rw [u8Sample_fst channel streams 0 []]
  have hstep : streams.foldl (fun x m =>
      if unionI (m.linear.getD channel 0) > 0 then
        i32 (x + i32 (i32 (((byteAt m.ptr 0 : Int) - 0x80) * unionI (m.linear.getD channel 0))
          / 65536))
      else x) 0 =
      streams.foldl (fun x m =>
        if unionI (m.linear.getD channel 0) > 0 then
          i32 (x + wideGain ((byteAt m.ptr 0 : Int) - 0x80) (unionI (m.linear.getD channel 0)))
        else x) 0 := by
    refine List.foldl_ext _ _ 0 (fun a m hm => ?_)
    by_cases hg : unionI (m.linear.getD channel 0) > 0
    · rw [if_pos hg, if_pos hg, u8Wrap_eq _ _ (hprod m hm hg).1 (hprod m hm hg).2]
    · rw [if_neg hg, if_neg hg]
  rw [hstep]
  have hfold := gatedFoldWrap_eq i32 (-0x80000000) 0x7FFFFFFF
    (fun x h1 h2 => i32_eq_self x h1 h2)
    (fun m => unionI (m.linear.getD channel 0))
    (fun m => wideGain ((byteAt m.ptr 0 : Int) - 0x80) (unionI (m.linear.getD channel 0)))
    streams 0 (fun k hk => by
      simp only [idealSum, u8Contrib, zero_add]
      exact h k hk)
  simp only [idealSum, u8Contrib, zero_add] at hfold
  exact hfold


theorem ulawSample_fst (expand : Nat → Int) (channel : Nat) :
    ∀ (l : List MixStream) (a : Int) (b : List MixStream),
    (l.foldl (ulawStep expand channel) (a, b)).1 =
      l.foldl (fun x m =>
        if unionI (m.linear.getD channel 0) > 0 then
          i32 (x + i32 (i32 (i32 (expand (byteAt m.ptr 0))
              * (unionI (m.linear.getD channel 0) % 65536)) / 65536
            + i32 (i32 (expand (byteAt m.ptr 0)) * (unionI (m.linear.getD channel 0) / 65536))))
        else x) a := by
  intro l
  induction l with
  | nil => intro a b; rfl
  | cons m t ih =>
    intro a b
    simp only [List.foldl_cons, ulawStep]
    exact ih _ _

/-- The wrapped `ulaw` per-sample accumulation equals the exact sum of
the streams' contributions, given that the external expand table yields
16-bit values and every prefix of the sum fits the 32-bit
accumulator. -/
theorem ulawSample_eq_ideal (expand : Nat → Int) (streams : List MixStream) (channel : Nat)
    (hexp : ∀ b, -0x8000 ≤ expand b ∧ expand b ≤ 0x7FFF)
    (h : ∀ k, k ≤ streams.length →
      -0x80000000 ≤ idealSum (ulawContrib expand channel) (streams.take k) ∧
      idealSum (ulawContrib expand channel) (streams.take k) ≤ 0x7FFFFFFF) :
    (ulawSample expand streams channel).1 = idealSum (ulawContrib expand channel) streams := by
  unfold ulawSample
  rw [ulawSample_fst expand channel streams 0 []]
  have hstep : streams.foldl (fun x m =>
      if unionI (m.linear.getD channel 0) > 0 then
        i32 (x + i32 (i32 (i32 (expand (byteAt m.ptr 0))
            * (unionI (m.linear.getD channel 0) % 65536)) / 65536
          + i32 (i32 (expand (byteAt m.ptr 0)) * (unionI (m.linear.getD channel 0) / 65536))))
      else x) 0 =
      streams.foldl (fun x m =>
        if unionI (m.linear.getD channel 0) > 0 then
          i32 (x + hiLoGain (i32 (expand (byteAt m.ptr 0))) (unionI (m.linear.getD channel 0)))
        else x) 0 := by
    refine List.foldl_ext _ _ 0 (fun a m hm => ?_)
    by_cases hg : unionI (m.linear.getD channel 0) > 0
    · have hb := hexp (byteAt m.ptr 0)
      have he : i32 (expand (byteAt m.ptr 0)) = expand (byteAt m.ptr 0) :=
        i32_eq_self _ (by omega) (by omega)
      rw [if_pos hg, if_pos hg,
        hiLoWrap_eq (i32 (expand (byteAt m.ptr 0))) (unionI (m.linear.getD channel 0))
          (by rw [he]; exact hb.1) (by rw [he]; exact hb.2) hg (unionI_mem _).2]
    · rw [if_neg hg, if_neg hg]
  rw [hstep]
  have hfold := gatedFoldWrap_eq i32 (-0x80000000) 0x7FFFFFFF
    (fun x h1 h2 => i32_eq_self x h1 h2)
    (fun m => unionI (m.linear.getD channel 0))
    (fun m => hiLoGain (i32 (expand (byteAt m.ptr 0))) (unionI (m.linear.getD channel 0)))
    streams 0 (fun k hk => by
      simp only [idealSum, ulawContrib, zero_add]
      exact h k hk)
  simp only [idealSum, ulawContrib, zero_add] at hfold
  exact hfold


theorem alawSample_fst (expand : Nat → Int) (channel : Nat) :
    ∀ (l : List MixStream) (a : Int) (b : List MixStream),
    (l.foldl (alawStep expand channel) (a, b)).1 =
      l.foldl (fun x m =>
        if unionI (m.linear.getD channel 0) > 0 then
          i32 (x + i32 (i32 (i32 (expand (byteAt m.ptr 0))
              * (unionI (m.linear.getD channel 0) % 65536)) / 65536
            + i32 (i32 (expand (byteAt m.ptr 0)) * (unionI (m.linear.getD channel 0) / 65536))))
        else x) a := by
  intro l
  induction l with
  | nil => intro a b; rfl
  | cons m t ih =>
    intro a b
    simp only [List.foldl_cons, alawStep]
    exact ih _ _

/-- The wrapped `alaw` per-sample accumulation equals the exact sum of
the streams' contributions, given that the external expand table yields
16-bit values and every prefix of the sum fits the 32-bit
accumulator. -/
theorem alawSample_eq_ideal (expand : Nat → Int) (streams : List MixStream) (channel : Nat)
    (hexp : ∀ b, -0x8000 ≤ expand b ∧ expand b ≤ 0x7FFF)
    (h : ∀ k, k ≤ streams.length →
      -0x80000000 ≤ idealSum (alawContrib expand channel) (streams.take k) ∧
      idealSum (alawContrib expand channel) (streams.take k) ≤ 0x7FFFFFFF) :
    (alawSample expand streams channel).1 = idealSum (alawContrib expand channel) streams := by
  unfold alawSample
  rw [alawSample_fst expand channel streams 0 []]
  have hstep : streams.foldl (fun x m =>
      if unionI (m.linear.getD channel 0) > 0 then
        i32 (x + i32 (i32 (i32 (expand (byteAt m.ptr 0))
            * (unionI (m.linear.getD channel 0) % 65536)) / 65536
          + i32 (i32 (expand (byteAt m.ptr 0)) * (unionI (m.linear.getD channel 0) / 65536))))
      else x) 0 =
      streams.foldl (fun x m =>
        if unionI (m.linear.getD channel 0) > 0 then
          i32 (x + hiLoGain (i32 (expand (byteAt m.ptr 0))) (unionI (m.linear.getD channel 0)))
        else x) 0 := by
    refine List.foldl_ext _ _ 0 (fun a m hm => ?_)
    by_cases hg : unionI (m.linear.getD channel 0) > 0
    · have hb := hexp (byteAt m.ptr 0)
      have he : i32 (expand (byteAt m.ptr 0)) = expand (byteAt m.ptr 0) :=
        i32_eq_self _ (by omega) (by omega)
      rw [if_pos hg, if_pos hg,
        hiLoWrap_eq (i32 (expand (byteAt m.ptr 0))) (unionI (m.linear.getD channel 0))
          (by rw [he]; exact hb.1) (by rw [he]; exact hb.2) hg (unionI_mem _).2]
    · rw [if_neg hg, if_neg hg]
  rw [hstep]
  have hfold := gatedFoldWrap_eq i32 (-0x80000000) 0x7FFFFFFF
    (fun x h1 h2 => i32_eq_self x h1 h2)
    (fun m => unionI (m.linear.getD channel 0))
    (fun m => hiLoGain (i32 (expand (byteAt m.ptr 0))) (unionI (m.linear.getD channel 0)))
    streams 0 (fun k hk => by
      simp only [idealSum, alawContrib, zero_add]
      exact h k hk)
  simp only [idealSum, alawContrib, zero_add] at hfold
  exact hfold


theorem pa_mix_s16ne_c_one (streams : List MixStream) (channels channel : Nat) :
    pa_mix_s16ne_c streams channels 2 channel =
      (storeS16ne (paClamp (s16neSample streams channel).1 (-0x8000) 0x7FFF),
        (s16neSample streams channel).2) := by
  simp [pa_mix_s16ne_c]


theorem pa_mix_s16re_c_one (streams : List MixStream) (channels channel : Nat) :
    pa_mix_s16re_c streams channels 2 channel =
      (storeS16re (paClamp (s16reSample streams channel).1 (-0x8000) 0x7FFF),
        (s16reSample streams channel).2) := by
  simp [pa_mix_s16re_c]


theorem pa_mix_s32ne_c_one (streams : List MixStream) (channels channel : Nat) :
    pa_mix_s32ne_c streams channels 4 channel =
      (storeS32ne (paClamp (s32neSample streams channel).1 (-0x80000000) 0x7FFFFFFF),
        (s32neSample streams channel).2) := by
  simp [pa_mix_s32ne_c]


theorem pa_mix_s32re_c_one (streams : List MixStream) (channels channel : Nat) :
    pa_mix_s32re_c streams channels 4 channel =
      (storeS32re (paClamp (s32reSample streams channel).1 (-0x80000000) 0x7FFFFFFF),
        (s32reSample streams channel).2) := by
  simp [pa_mix_s32re_c]


theorem pa_mix_s24ne_c_one (streams : List MixStream) (channels channel : Nat) :
    pa_mix_s24ne_c streams channels 3 channel =
      (storeU24le (((paClamp (s24neSample streams channel).1 (-0x80000000) 0x7FFFFFFF)
          % 0x100000000).toNat / 256),
        (s24neSample streams channel).2) := by
  simp [pa_mix_s24ne_c]


theorem pa_mix_s24re_c_one (streams : List MixStream) (channels channel : Nat) :
    pa_mix_s24re_c streams channels 3 channel =
      (storeU24be (((paClamp (s24reSample streams channel).1 (-0x80000000) 0x7FFFFFFF)
          % 0x100000000).toNat / 256),
        (s24reSample streams channel).2) := by
  simp [pa_mix_s24re_c]


theorem pa_mix_s24_32ne_c_one (streams : List MixStream) (channels channel : Nat) :
    pa_mix_s24_32ne_c streams channels 4 channel =
      (storeU32le (((paClamp (s24_32neSample streams channel).1 (-0x80000000) 0x7FFFFFFF)
          % 0x100000000).toNat / 256),
        (s24_32neSample streams channel).2) := by
  simp [pa_mix_s24_32ne_c]


theorem pa_mix_s24_32re_c_one (streams : List MixStream) (channels channel : Nat) :
    pa_mix_s24_32re_c streams channels 4 channel =
      (storeU32be (((paClamp (s24_32reSample streams channel).1 (-0x80000000) 0x7FFFFFFF)
          % 0x100000000).toNat / 256),
        (s24_32reSample streams channel).2) := by
  simp [pa_mix_s24_32re_c]


theorem pa_mix_u8_c_one (streams : List MixStream) (channels channel : Nat) :
    pa_mix_u8_c streams channels 1 channel =
      ([((paClamp (u8Sample streams channel).1 (-0x80) 0x7F + 0x80) % 256).toNat],
        (u8Sample streams channel).2) := by
  simp [pa_mix_u8_c]

theorem pa_mix_ulaw_c_one (expand : Nat → Int) (compress : Int → Nat)
    (streams : List MixStream) (channels channel : Nat) :
    pa_mix_ulaw_c expand compress streams channels 1 channel =
      ([compress (paClamp (ulawSample expand streams channel).1 (-0x8000) 0x7FFF / 4) % 256],
        (ulawSample expand streams channel).2) := by
  simp [pa_mix_ulaw_c]

theorem pa_mix_alaw_c_one (expand : Nat → Int) (compress : Int → Nat)
    (streams : List MixStream) (channels channel : Nat) :
    pa_mix_alaw_c expand compress streams channels 1 channel =
      ([compress (paClamp (alawSample expand streams channel).1 (-0x8000) 0x7FFF / 8) % 256],
        (alawSample expand streams channel).2) := by
  simp [pa_mix_alaw_c]

/-!
## Contribution bounds and prefix-sum bounds
-/

theorem hiLoGain_unity_bound (v cv : Int) (hv1 : -0x8000 ≤ v) (hv2 : v ≤ 0x7FFF)
    (h1 : 0 < cv) (h2 : cv ≤ 0x10000) :
    -0x8000 ≤ hiLoGain v cv ∧ hiLoGain v cv ≤ 0x7FFF := by
  unfold hiLoGain
  rcases eq_or_lt_of_le h2 with heq | hlt
  · subst heq
    norm_num
    omega
  · have hm : cv % 65536 = cv := by omega
    have hd : cv / 65536 = 0 := by omega
    rw [hm, hd, mul_zero, add_zero]
    have hp1 : v * cv ≤ 0x7FFF * 65535 := by nlinarith
    have hp2 : -0x8000 * 65535 ≤ v * cv := by nlinarith
    have hb1 : v * cv / 65536 ≤ 0x7FFF * 65535 / 65536 := Int.ediv_le_ediv (by norm_num) hp1
    have hb2 : -0x8000 * 65535 / 65536 ≤ v * cv / 65536 := Int.ediv_le_ediv (by norm_num) hp2
    omega

theorem s16neContrib_bound (channel : Nat) (m : MixStream)
    (hg : unionI (m.linear.getD channel 0) ≤ 0x10000) :
    -0x8000 ≤ s16neContrib channel m ∧ s16neContrib channel m ≤ 0x7FFF := by
  simp only [s16neContrib]
  by_cases hgt : unionI (m.linear.getD channel 0) > 0
  · rw [if_pos hgt]
    exact hiLoGain_unity_bound _ _ (loadS16ne_mem m.ptr).1 (loadS16ne_mem m.ptr).2 hgt hg
  · rw [if_neg hgt]
    norm_num

theorem u8Contrib_bound (channel : Nat) (m : MixStream)
    (hg : unionI (m.linear.getD channel 0) ≤ 0x1000000) :
    -0x8000 ≤ u8Contrib channel m ∧ u8Contrib channel m ≤ 0x7FFF := by
  simp only [u8Contrib, wideGain]
  by_cases hgt : unionI (m.linear.getD channel 0) > 0
  · rw [if_pos hgt]
    have hv1 : (0 : Int) ≤ (byteAt m.ptr 0 : Int) := Int.ofNat_nonneg _
    have hv2 : (byteAt m.ptr 0 : Int) ≤ 255 := by
      exact_mod_cast Nat.le_of_lt_succ (byteAt_lt m.ptr 0)
    have hp1 : ((byteAt m.ptr 0 : Int) - 0x80) * unionI (m.linear.getD channel 0)
        ≤ 0x7F * 0x1000000 := by nlinarith
    have hp2 : -0x80 * 0x1000000
        ≤ ((byteAt m.ptr 0 : Int) - 0x80) * unionI (m.linear.getD channel 0) := by nlinarith
    have hb1 := Int.ediv_le_ediv (c := 65536) (by norm_num) hp1
    have hb2 := Int.ediv_le_ediv (c := 65536) (by norm_num) hp2
    omega
  · rw [if_neg hgt]
    norm_num

theorem idealSum_abs_le (contrib : MixStream → Int) (B : Int) :
    ∀ (l : List MixStream), (∀ m ∈ l, -B ≤ contrib m ∧ contrib m ≤ B) →
      -((l.length : Int) * B) ≤ idealSum contrib l ∧
      idealSum contrib l ≤ (l.length : Int) * B := by
  intro l
  induction l with
  | nil => intro _; simp [idealSum]
  | cons m t ih =>
    intro h
    have hm := h m (List.mem_cons_self m t)
    have ht := ih (fun x hx => h x (List.mem_cons_of_mem _ hx))
    simp only [idealSum, List.map_cons, List.sum_cons, List.length_cons] at *
    push_cast
    constructor <;> nlinarith [ht.1, ht.2, hm.1, hm.2]

theorem idealSum_take_bound (contrib : MixStream → Int) (B : Int)
    (l : List MixStream) (hb : ∀ m ∈ l, -B ≤ contrib m ∧ contrib m ≤ B) :
    ∀ k, k ≤ l.length →
      -((k : Int) * B) ≤ idealSum contrib (l.take k) ∧
      idealSum contrib (l.take k) ≤ (k : Int) * B := by
  intro k hk
  have hlen : (l.take k).length = k := by
    simp [List.length_take, Nat.min_eq_left hk]
  have h := idealSum_abs_le contrib B (l.take k)
    (fun m hm => hb m (List.mem_of_mem_take hm))
  rw [hlen] at h
  exact h

/-- C5 (amended): for every integer-format kernel, the written output
sample is the exact accumulated sum of the per-stream gained samples,
clamped exactly to the destination format's boundaries — provided every
prefix of that exact sum fits the kernel's accumulator width (32-bit
for the 16-bit, 8-bit and companded kernels, 64-bit for the rest; the
8-bit kernel additionally needs each sample-gain product to fit 32
bits, and the companded kernels a 16-bit-valued expand table).  Without
that proviso the accumulator wraps to the opposite sign before the
clamp runs. -/
theorem integer_kernels_clamp_ideal_sum :
    (∀ (streams : List MixStream) (channels channel : Nat),
      (∀ k, k ≤ streams.length →
        -0x80000000 ≤ idealSum (s16neContrib channel) (streams.take k) ∧
        idealSum (s16neContrib channel) (streams.take k) ≤ 0x7FFFFFFF) →
      (pa_mix_s16ne_c streams channels 2 channel).1 =
        storeS16ne (paClamp (idealSum (s16neContrib channel) streams) (-0x8000) 0x7FFF)) ∧
    (∀ (streams : List MixStream) (channels channel : Nat),
      (∀ k, k ≤ streams.length →
        -0x80000000 ≤ idealSum (s16reContrib channel) (streams.take k) ∧
        idealSum (s16reContrib channel) (streams.take k) ≤ 0x7FFFFFFF) →
      (pa_mix_s16re_c streams channels 2 channel).1 =
        storeS16re (paClamp (idealSum (s16reContrib channel) streams) (-0x8000) 0x7FFF)) ∧
    (∀ (streams : List MixStream) (channels channel : Nat),
      (∀ k, k ≤ streams.length →
        -0x8000000000000000 ≤ idealSum (s32neContrib channel) (streams.take k) ∧
        idealSum (s32neContrib channel) (streams.take k) ≤ 0x7FFFFFFFFFFFFFFF) →
      (pa_mix_s32ne_c streams channels 4 channel).1 =
        storeS32ne (paClamp (idealSum (s32neContrib channel) streams)
          (-0x80000000) 0x7FFFFFFF)) ∧
    (∀ (streams : List MixStream) (channels channel : Nat),
      (∀ k, k ≤ streams.length →
        -0x8000000000000000 ≤ idealSum (s32reContrib channel) (streams.take k) ∧
        idealSum (s32reContrib channel) (streams.take k) ≤ 0x7FFFFFFFFFFFFFFF) →
      (pa_mix_s32re_c streams channels 4 channel).1 =
        storeS32re (paClamp (idealSum (s32reContrib channel) streams)
          (-0x80000000) 0x7FFFFFFF)) ∧
    (∀ (streams : List MixStream) (channels channel : Nat),
      (∀ k, k ≤ streams.length →
        -0x8000000000000000 ≤ idealSum (s24neContrib channel) (streams.take k) ∧
        idealSum (s24neContrib channel) (streams.take k) ≤ 0x7FFFFFFFFFFFFFFF) →
      (pa_mix_s24ne_c streams channels 3 channel).1 =
        storeU24le (((paClamp (idealSum (s24neContrib channel) streams)
          (-0x80000000) 0x7FFFFFFF) % 0x100000000).toNat / 256)) ∧
    (∀ (streams : List MixStream) (channels channel : Nat),
      (∀ k, k ≤ streams.length →
        -0x8000000000000000 ≤ idealSum (s24reContrib channel) (streams.take k) ∧
        idealSum (s24reContrib channel) (streams.take k) ≤ 0x7FFFFFFFFFFFFFFF) →
      (pa_mix_s24re_c streams channels 3 channel).1 =
        storeU24be (((paClamp (idealSum (s24reContrib channel) streams)
          (-0x80000000) 0x7FFFFFFF) % 0x100000000).toNat / 256)) ∧
    (∀ (streams : List MixStream) (channels channel : Nat),
      (∀ k, k ≤ streams.length →
        -0x8000000000000000 ≤ idealSum (s24_32neContrib channel) (streams.take k) ∧
        idealSum (s24_32neContrib channel) (streams.take k) ≤ 0x7FFFFFFFFFFFFFFF) →
      (pa_mix_s24_32ne_c streams channels 4 channel).1 =
        storeU32le (((paClamp (idealSum (s24_32neContrib channel) streams)
          (-0x80000000) 0x7FFFFFFF) % 0x100000000).toNat / 256)) ∧
    (∀ (streams : List MixStream) (channels channel : Nat),
      (∀ k, k ≤ streams.length →
        -0x8000000000000000 ≤ idealSum (s24_32reContrib channel) (streams.take k) ∧
        idealSum (s24_32reContrib channel) (streams.take k) ≤ 0x7FFFFFFFFFFFFFFF) →
      (pa_mix_s24_32re_c streams channels 4 channel).1 =
        storeU32be (((paClamp (idealSum (s24_32reContrib channel) streams)
          (-0x80000000) 0x7FFFFFFF) % 0x100000000).toNat / 256)) ∧
    (∀ (streams : List MixStream) (channels channel : Nat),
      (∀ m ∈ streams, unionI (m.linear.getD channel 0) > 0 →
        -0x80000000 ≤ ((byteAt m.ptr 0 : Int) - 0x80) * unionI (m.linear.getD channel 0) ∧
        ((byteAt m.ptr 0 : Int) - 0x80) * unionI (m.linear.getD channel 0) ≤ 0x7FFFFFFF) →
      (∀ k, k ≤ streams.length →
        -0x80000000 ≤ idealSum (u8Contrib channel) (streams.take k) ∧
        idealSum (u8Contrib channel) (streams.take k) ≤ 0x7FFFFFFF) →
      (pa_mix_u8_c streams channels 1 channel).1 =
        [((paClamp (idealSum (u8Contrib channel) streams) (-0x80) 0x7F + 0x80) % 256).toNat]) ∧
    (∀ (expand : Nat → Int) (compress : Int → Nat)
        (streams : List MixStream) (channels channel : Nat),
      (∀ b, -0x8000 ≤ expand b ∧ expand b ≤ 0x7FFF) →
      (∀ k, k ≤ streams.length →
        -0x80000000 ≤ idealSum (ulawContrib expand channel) (streams.take k) ∧
        idealSum (ulawContrib expand channel) (streams.take k) ≤ 0x7FFFFFFF) →
      (pa_mix_ulaw_c expand compress streams channels 1 channel).1 =
        [compress (paClamp (idealSum (ulawContrib expand channel) streams)
          (-0x8000) 0x7FFF / 4) % 256]) ∧
    (∀ (expand : Nat → Int) (compress : Int → Nat)
        (streams : List MixStream) (channels channel : Nat),
      (∀ b, -0x8000 ≤ expand b ∧ expand b ≤ 0x7FFF) →
      (∀ k, k ≤ streams.length →
        -0x80000000 ≤ idealSum (alawContrib expand channel) (streams.take k) ∧
        idealSum (alawContrib expand channel) (streams.take k) ≤ 0x7FFFFFFF) →
      (pa_mix_alaw_c expand compress streams channels 1 channel).1 =
        [compress (paClamp (idealSum (alawContrib expand channel) streams)
          (-0x8000) 0x7FFF / 8) % 256]) := by
  refine ⟨?_, ?_, ?_, ?_, ?_, ?_, ?_, ?_, ?_, ?_, ?_⟩
  · intro streams channels channel h
    rw [pa_mix_s16ne_c_one]
    dsimp only
    rw [s16neSample_eq_ideal streams channel h]
  · intro streams channels channel h
    rw [pa_mix_s16re_c_one]
    dsimp only
    rw [s16reSample_eq_ideal streams channel h]
  · intro streams channels channel h
    rw [pa_mix_s32ne_c_one]
    dsimp only
    rw [s32neSample_eq_ideal streams channel h]
  · intro streams channels channel h
    rw [pa_mix_s32re_c_one]
    dsimp only
    rw [s32reSample_eq_ideal streams channel h]
  · intro streams channels channel h
    rw [pa_mix_s24ne_c_one]
    dsimp only
    rw [s24neSample_eq_ideal streams channel h]
  · intro streams channels channel h
    rw [pa_mix_s24re_c_one]
    dsimp only
    rw [s24reSample_eq_ideal streams channel h]
  · intro streams channels channel h
    rw [pa_mix_s24_32ne_c_one]
    dsimp only
    rw [s24_32neSample_eq_ideal streams channel h]
  · intro streams channels channel h
    rw [pa_mix_s24_32re_c_one]
    dsimp only
    rw [s24_32reSample_eq_ideal streams channel h]
  · intro streams channels channel hprod h
    rw [pa_mix_u8_c_one]
    dsimp only
    rw [u8Sample_eq_ideal streams channel hprod h]
  · intro expand compress streams channels channel hexp h
    rw [pa_mix_ulaw_c_one]
    dsimp only
    rw [ulawSample_eq_ideal expand streams channel hexp h]
  · intro expand compress streams channels channel hexp h
    rw [pa_mix_alaw_c_one]
    dsimp only
    rw [alawSample_eq_ideal expand streams channel hexp h]

/-- C5 counterexample: three full-scale 16-bit streams at the maximum
positive gain.  The exact accumulated sum exceeds the 16-bit maximum,
but the 32-bit accumulator wraps before the clamp, so the kernel writes
`-0x8000` — the opposite boundary — not `0x7FFF` as the claim requires
for every combination of samples and gains. -/
theorem s16ne_sum_overflow_wraps :
    idealSum (s16neContrib 0)
      [⟨[0xFF, 0x7F], [0x7FFFFFFF]⟩, ⟨[0xFF, 0x7F], [0x7FFFFFFF]⟩,
       ⟨[0xFF, 0x7F], [0x7FFFFFFF]⟩] > 0x7FFF ∧
    (pa_mix_s16ne_c
      [⟨[0xFF, 0x7F], [0x7FFFFFFF]⟩, ⟨[0xFF, 0x7F], [0x7FFFFFFF]⟩,
       ⟨[0xFF, 0x7F], [0x7FFFFFFF]⟩] 1 2 0).1 = storeS16ne (-0x8000) ∧
    (pa_mix_s16ne_c
      [⟨[0xFF, 0x7F], [0x7FFFFFFF]⟩, ⟨[0xFF, 0x7F], [0x7FFFFFFF]⟩,
       ⟨[0xFF, 0x7F], [0x7FFFFFFF]⟩] 1 2 0).1 ≠ storeS16ne 0x7FFF := by
  refine ⟨by decide, by decide, by decide⟩

/-- Witness for `integer_kernels_clamp_ideal_sum`: two full-scale
16-bit streams at unity gain clamp exactly to `0x7FFF`. -/
theorem integer_kernels_clamp_ideal_sum_witness :
    (pa_mix_s16ne_c [⟨[0xFF, 0x7F], [0x10000]⟩, ⟨[0xFF, 0x7F], [0x10000]⟩] 1 2 0).1
      = [0xFF, 0x7F] := by
  have h := integer_kernels_clamp_ideal_sum.1
    [⟨[0xFF, 0x7F], [0x10000]⟩, ⟨[0xFF, 0x7F], [0x10000]⟩] 1 0 (by decide)
  exact h.trans (by decide)

/-- C6 counterexample: at input byte `0xFF` with gain `2.0` (Q16.16
`0x20000`), `pa_mix_u8_c` writes `0xFF` (single wide multiply, clamp to
`[-0x80, 0x7F]`, re-bias), while the rule the claim states — hi/lo
split, clamp to `[-0x8000, 0x7FFF]`, then re-bias — would write
`0x7E`. -/
theorem pa_mix_u8_c_differs_from_claimed_rule :
    (pa_mix_u8_c [⟨[0xFF], [0x20000]⟩] 1 1 0).1 = [0xFF] ∧
    claimedU8Sample [⟨[0xFF], [0x20000]⟩] 0 = 0x7E ∧
    (pa_mix_u8_c [⟨[0xFF], [0x20000]⟩] 1 1 0).1 ≠
      [claimedU8Sample [⟨[0xFF], [0x20000]⟩] 0] := by
  refine ⟨by decide, by decide, by decide⟩

/-- C6 (amended): the 8-bit unsigned kernel applies gain by the single
32-bit multiply `(sample * gain) >> 16` (not a hi/lo split), clamps the
accumulated sum to `[-0x80, 0x7F]` (not `[-0x8000, 0x7FFF]`), and
re-biases by `+0x80` before writing the unsigned byte; the arithmetic
is exact whenever every gain is at most `0x1000000` (256.0) and there
are at most `0x8000` streams. -/
theorem pa_mix_u8_c_gain_clamp_rebias (streams : List MixStream) (channels channel : Nat)
    (hg : ∀ m ∈ streams, unionI (m.linear.getD channel 0) ≤ 0x1000000)
    (hn : streams.length ≤ 0x8000) :
    (pa_mix_u8_c streams channels 1 channel).1 =
      [((paClamp (idealSum (u8Contrib channel) streams) (-0x80) 0x7F + 0x80) % 256).toNat] := by
  have hb : ∀ m ∈ streams, -0x8000 ≤ u8Contrib channel m ∧ u8Contrib channel m ≤ 0x8000 := by
    intro m hm
    have h := u8Contrib_bound channel m (hg m hm)
    omega
  have hprod : ∀ m ∈ streams, unionI (m.linear.getD channel 0) > 0 →
      -0x80000000 ≤ ((byteAt m.ptr 0 : Int) - 0x80) * unionI (m.linear.getD channel 0) ∧
      ((byteAt m.ptr 0 : Int) - 0x80) * unionI (m.linear.getD channel 0) ≤ 0x7FFFFFFF := by
    intro m hm hgt
    have hcv := hg m hm
    have hv1 : (0 : Int) ≤ (byteAt m.ptr 0 : Int) := Int.ofNat_nonneg _
    have hv2 : (byteAt m.ptr 0 : Int) ≤ 255 := by
      exact_mod_cast Nat.le_of_lt_succ (byteAt_lt m.ptr 0)
    constructor <;> nlinarith
  have hpre : ∀ k, k ≤ streams.length →
      -0x80000000 ≤ idealSum (u8Contrib channel) (streams.take k) ∧
      idealSum (u8Contrib channel) (streams.take k) ≤ 0x7FFFFFFF := by
    intro k hk
    have h := idealSum_take_bound (u8Contrib channel) 0x8000 streams hb k hk
    have hkb : (k : Int) ≤ 0x8000 := by
      have : (k : Int) ≤ (streams.length : Int) := by exact_mod_cast hk
      have : (streams.length : Int) ≤ 0x8000 := by exact_mod_cast hn
      omega
    constructor <;> nlinarith [h.1, h.2]
  rw [pa_mix_u8_c_one]
  dsimp only
  rw [u8Sample_eq_ideal streams channel hprod hpre]

/-- Witness for `pa_mix_u8_c_gain_clamp_rebias`: one stream, byte
`0xFF` at gain `2.0`: the sum 254 clamps to 127 and re-biases to
`0xFF`. -/
theorem pa_mix_u8_c_gain_clamp_rebias_witness :
    (pa_mix_u8_c [⟨[0xFF], [0x20000]⟩] 1 1 0).1 =
      [((paClamp (idealSum (u8Contrib 0) [⟨[0xFF], [0x20000]⟩]) (-0x80) 0x7F + 0x80)
        % 256).toNat] := by
  exact pa_mix_u8_c_gain_clamp_rebias [⟨[0xFF], [0x20000]⟩] 1 0 (by decide) (by decide)

/-- C10: in the 16-bit kernel, when every stream's Q16.16 gain is at
most unity (`0x10000`) and there are at most `2^15` streams, the 32-bit
accumulator never overflows: every prefix of the exact accumulated sum
stays within `int32_t`, and the kernel's wrapped accumulation equals
the exact sum — the final clamp is the only place magnitude is
reduced. -/
theorem pa_mix_s16ne_accumulator_safe (streams : List MixStream) (channel : Nat)
    (hg : ∀ m ∈ streams, unionI (m.linear.getD channel 0) ≤ 0x10000)
    (hn : streams.length ≤ 0x8000) :
    (∀ k, k ≤ streams.length →
      -0x80000000 ≤ idealSum (s16neContrib channel) (streams.take k) ∧
      idealSum (s16neContrib channel) (streams.take k) ≤ 0x7FFFFFFF) ∧
    (s16neSample streams channel).1 = idealSum (s16neContrib channel) streams := by
  have hb : ∀ m ∈ streams,
      -0x8000 ≤ s16neContrib channel m ∧ s16neContrib channel m ≤ 0x8000 := by
    intro m hm
    have h := s16neContrib_bound channel m (hg m hm)
    omega
  have hpre : ∀ k, k ≤ streams.length →
      -0x80000000 ≤ idealSum (s16neContrib channel) (streams.take k) ∧
      idealSum (s16neContrib channel) (streams.take k) ≤ 0x7FFFFFFF := by
    intro k hk
    have h := idealSum_take_bound (s16neContrib channel) 0x8000 streams hb k hk
    have hkb : (k : Int) ≤ 0x8000 := by
      have : (k : Int) ≤ (streams.length : Int) := by exact_mod_cast hk
      have : (streams.length : Int) ≤ 0x8000 := by exact_mod_cast hn
      omega
    constructor <;> nlinarith [h.1, h.2]
  exact ⟨hpre, s16neSample_eq_ideal streams channel hpre⟩

/-- Witness for `pa_mix_s16ne_accumulator_safe`: two unity-gain
full-scale streams; the wrapped accumulator equals the exact sum
65534. -/
theorem pa_mix_s16ne_accumulator_safe_witness :
    (s16neSample [⟨[0xFF, 0x7F], [0x10000]⟩, ⟨[0xFF, 0x7F], [0x10000]⟩] 0).1 =
      idealSum (s16neContrib 0) [⟨[0xFF, 0x7F], [0x10000]⟩, ⟨[0xFF, 0x7F], [0x10000]⟩] := by
  exact (pa_mix_s16ne_accumulator_safe
    [⟨[0xFF, 0x7F], [0x10000]⟩, ⟨[0xFF, 0x7F], [0x10000]⟩] 0 (by decide) (by decide)).2
